import Mathlib

/-!
Verification of the pairwise-alignment engine of the `genotypst` alignment
plugin (`src/plugins/alignment/src/{alignment,aligners,scoring,matrices}.rs`).

Modelling conventions:
* Byte sequences (`&[u8]`) and the strings produced from them are modelled as
  `List Nat` of byte values (all inputs of interest are ASCII, where
  `String::from_utf8_lossy` is the identity on bytes).
* `i32` is modelled as `Int` together with explicit saturating arithmetic
  (`satAdd`, `satMul`) clamping to `[-2^31, 2^31 - 1]`, matching
  `i32::saturating_add` / `i32::saturating_mul`.  The cast `length as i32`
  inside `gap_penalty` is modelled as the exact coercion `Nat → Int`, which
  agrees with the source for all lengths below `2^31`.
* The dense row-major `Vec<Cell>` of `DPMatrix` is modelled as an index
  function `Nat → Nat → Cell`; for in-bounds indices the flat index
  `i * cols + j` is injective, so functional update has the same semantics
  as the vector write in the source.
* Fallible Rust functions returning `Result<_, AlignmentError>` are modelled
  with `Except AlignmentError _`.
* The recursion of `traceback_recursive` is on `i + j`, which strictly
  decreases along every recursive call; it is rendered with an explicit fuel
  argument, and every call site supplies fuel `i + j + 1`, which is never
  exhausted.
-/

namespace Genotypst

/-- Minimum value of a 32-bit signed integer (`i32::MIN`). -/
def i32Min : Int := -2147483648

/-- Maximum value of a 32-bit signed integer (`i32::MAX`). -/
def i32Max : Int := 2147483647

/-- `i32::saturating_add`: addition clamped to the `i32` range. -/
def satAdd (a b : Int) : Int := max i32Min (min i32Max (a + b))

/-- `i32::saturating_mul`: multiplication clamped to the `i32` range. -/
def satMul (a b : Int) : Int := max i32Min (min i32Max (a * b))

/-- Arrow directions stored as a 3-bit bitmask (`Arrows` in alignment.rs);
`DIAGONAL = 1`, `UP = 2`, `LEFT = 4`. -/
structure Arrows where
  bits : Nat
deriving DecidableEq, Repr

/-- `Arrows::new`. -/
def Arrows.new : Arrows := ⟨0⟩

/-- `Arrows::has_diagonal`. -/
def Arrows.hasDiagonal (a : Arrows) : Bool := a.bits &&& 1 != 0

/-- `Arrows::has_up`. -/
def Arrows.hasUp (a : Arrows) : Bool := a.bits &&& 2 != 0

/-- `Arrows::has_left`. -/
def Arrows.hasLeft (a : Arrows) : Bool := a.bits &&& 4 != 0

/-- `Arrows::set_diagonal`. -/
def Arrows.setDiagonal (a : Arrows) : Arrows := ⟨a.bits ||| 1⟩

/-- `Arrows::set_up`. -/
def Arrows.setUp (a : Arrows) : Arrows := ⟨a.bits ||| 2⟩

/-- `Arrows::set_left`. -/
def Arrows.setLeft (a : Arrows) : Arrows := ⟨a.bits ||| 4⟩

/-- The sequence of conditional arrow writes performed by `fill_matrix_linear`
starting from `Arrows::new()`: set DIAGONAL if `d`, then UP if `u`, then LEFT
if `l`. -/
def arrowsOf (d u l : Bool) : Arrows :=
  let a := Arrows.new
  let a := if d then a.setDiagonal else a
  let a := if u then a.setUp else a
  if l then a.setLeft else a

/-- A cell in the dynamic programming matrix (`Cell` in alignment.rs). -/
structure Cell where
  score : Int
  arrows : Arrows
deriving DecidableEq, Repr

/-- `Cell::new`. -/
def Cell.new (score : Int) : Cell := ⟨score, Arrows.new⟩

/-- `Cell::with_arrows`. -/
def Cell.withArrows (score : Int) (arrows : Arrows) : Cell := ⟨score, arrows⟩

/-- `Cell::default`: score `i32::MIN`, no arrows. -/
def Cell.defaultCell : Cell := ⟨i32Min, Arrows.new⟩

/-- The dynamic programming matrix (`DPMatrix` in alignment.rs).  The flat
row-major `Vec<Cell>` is modelled as an index function. -/
structure DPMatrix where
  rows : Nat
  cols : Nat
  cells : Nat → Nat → Cell

/-- `DPMatrix::new`: every cell starts as `Cell::default()`. -/
def DPMatrix.new (rows cols : Nat) : DPMatrix := ⟨rows, cols, fun _ _ => Cell.defaultCell⟩

/-- `DPMatrix::get`. -/
def DPMatrix.get (mat : DPMatrix) (i j : Nat) : Cell := mat.cells i j

/-- `DPMatrix::set`. -/
def DPMatrix.set (mat : DPMatrix) (i j : Nat) (c : Cell) : DPMatrix :=
  ⟨mat.rows, mat.cols, fun a b => if a = i ∧ b = j then c else mat.cells a b⟩

/-- A step in the traceback path (`TracebackStep`). -/
structure TracebackStep where
  i : Nat
  j : Nat
deriving DecidableEq, Repr

/-- A complete traceback path (`TracebackPath`). -/
structure TracebackPath where
  steps : List TracebackStep
deriving DecidableEq, Repr

/-- `TracebackPath::push` appends a coordinate at the end. -/
def TracebackPath.push (p : TracebackPath) (i j : Nat) : TracebackPath :=
  ⟨p.steps ++ [⟨i, j⟩]⟩

/-- A pair of aligned sequences (`AlignedPair`); both sides are byte lists. -/
structure AlignedPair where
  seq1_aligned : List Nat
  seq2_aligned : List Nat
deriving DecidableEq, Repr

/-- Error type for alignment and scoring (`AlignmentError` in scoring.rs). -/
inductive AlignmentError where
  | InvalidCharacter : Nat → AlignmentError
  | Other : String → AlignmentError
deriving DecidableEq, Repr

/-- The data backing one generated `BuiltinMatrix` variant (matrices.rs /
build.rs): the 256-entry case-insensitive byte-to-index lookup map, the
alphabet dimension and the flattened square score table. -/
structure BuiltinMatrix where
  lookup : Nat → Option Nat
  dim : Nat
  scores : List Int

/-- `BuiltinMatrix::score` (generated by build.rs): look both residues up in
the map, then index the flattened score table at `i * n + j`. -/
def BuiltinMatrix.score (bm : BuiltinMatrix) (a b : Nat) : Except AlignmentError Int :=
  match bm.lookup a with
  | none => .error (.InvalidCharacter a)
  | some i =>
    match bm.lookup b with
    | none => .error (.InvalidCharacter b)
    | some j => .ok (bm.scores.getD (i * bm.dim + j) 0)

/-- `u8::to_ascii_uppercase`. -/
def toAsciiUppercase (c : Nat) : Nat := if 97 ≤ c ∧ c ≤ 122 then c - 32 else c

/-- Substitution scoring source (`SubstitutionScorer` in scoring.rs):
`Simple(match_score, mismatch_score)` or `Matrix`. -/
inductive SubstitutionScorer where
  | Simple : Int → Int → SubstitutionScorer
  | Matrix : BuiltinMatrix → SubstitutionScorer

/-- `SubstitutionScorer::score`. -/
def SubstitutionScorer.score : SubstitutionScorer → Nat → Nat → Except AlignmentError Int
  | .Simple ms mms, a, b =>
      if toAsciiUppercase a = toAsciiUppercase b then .ok ms else .ok mms
  | .Matrix bm, a, b => bm.score a b

/-- The validation loop for the matrix scorer: return the first byte whose
lookup is `none`. -/
def validateMatrixSeq (bm : BuiltinMatrix) : List Nat → Except AlignmentError Unit
  | [] => .ok ()
  | c :: rest =>
      if (bm.lookup c).isNone then .error (.InvalidCharacter c)
      else validateMatrixSeq bm rest

/-- `SubstitutionScorer::validate`. -/
def SubstitutionScorer.validate : SubstitutionScorer → List Nat → Except AlignmentError Unit
  | .Simple _ _, _ => .ok ()
  | .Matrix bm, seq => validateMatrixSeq bm seq

/-- Combined scoring configuration (`ScoringConfig` in scoring.rs). -/
structure ScoringConfig where
  scorer : SubstitutionScorer
  gap_open : Int
  gap_extend : Int

/-- `ScoringConfig::default`: simple scorer 3 / -1, gaps -2 / -2. -/
def ScoringConfig.defaultConfig : ScoringConfig := ⟨.Simple 3 (-1), -2, -2⟩

/-- `ScoringConfig::linear`. -/
def ScoringConfig.linear (ms mms go ge : Int) : ScoringConfig := ⟨.Simple ms mms, go, ge⟩

/-- `ScoringConfig::with_matrix`. -/
def ScoringConfig.with_matrix (bm : BuiltinMatrix) (go ge : Int) : ScoringConfig :=
  ⟨.Matrix bm, go, ge⟩

/-- `ScoringConfig::is_affine`. -/
def ScoringConfig.is_affine (cfg : ScoringConfig) : Bool := cfg.gap_open != cfg.gap_extend

/-- `ScoringConfig::substitution_score`. -/
def ScoringConfig.substitution_score (cfg : ScoringConfig) (a b : Nat) :
    Except AlignmentError Int :=
  cfg.scorer.score a b

/-- `ScoringConfig::gap_penalty`. -/
def ScoringConfig.gap_penalty (cfg : ScoringConfig) (length : Nat) : Int :=
  if length = 0 then 0
  else if cfg.is_affine then satAdd cfg.gap_open (satMul cfg.gap_extend ((length : Int) - 1))
  else satMul cfg.gap_open (length : Int)

/-- The message built by `ScoringConfig::ensure_linear` for an affine
configuration; it renders both gap values. -/
def affineMsg (g1 g2 : Int) : String :=
  "Affine gap penalties are not supported yet (gap_open=" ++ toString g1 ++
    ", gap_extend=" ++ toString g2 ++ ")"

/-- `ScoringConfig::ensure_linear`. -/
def ScoringConfig.ensure_linear (cfg : ScoringConfig) : Except AlignmentError Unit :=
  if cfg.is_affine then .error (.Other (affineMsg cfg.gap_open cfg.gap_extend))
  else .ok ()

/-- The result of the matrix fill (`FillResult` in alignment.rs). -/
structure FillResult where
  max_score : Int
  max_positions : List (Nat × Nat)
deriving DecidableEq, Repr

/-- The cell computed by the global branch of `fill_matrix_linear` from the
substitution score `s` and the three predecessor scores: saturating sums,
their maximum, and an arrow for every operand equal to the maximum. -/
def recurrenceCellG (gap s dPrev uPrev lPrev : Int) : Cell :=
  let diagScore := satAdd dPrev s
  let upScore := satAdd uPrev gap
  let leftScore := satAdd lPrev gap
  let best := max (max diagScore upScore) leftScore
  Cell.withArrows best
    (arrowsOf (diagScore == best) (upScore == best) (leftScore == best))

/-- The cell computed by the local branch of `fill_matrix_linear`: the
candidate maximum is additionally clamped at 0, and arrows are only recorded
when the final score is positive. -/
def recurrenceCellL (gap s dPrev uPrev lPrev : Int) : Cell :=
  let diagScore := satAdd dPrev s
  let upScore := satAdd uPrev gap
  let leftScore := satAdd lPrev gap
  let maxCandidate := max (max diagScore upScore) leftScore
  let cellScore := max maxCandidate 0
  Cell.withArrows cellScore
    (if 0 < cellScore then
      arrowsOf (diagScore == cellScore) (upScore == cellScore) (leftScore == cellScore)
    else Arrows.new)

/-- One iteration of the inner loop of the global fill: compute and store
cell `(i, j)`. -/
def fillCellG (scoring : ScoringConfig) (seq1 seq2 : List Nat) (i j : Nat)
    (mat : DPMatrix) : Except AlignmentError DPMatrix :=
  match scoring.substitution_score (seq1.getD (i - 1) 0) (seq2.getD (j - 1) 0) with
  | .error e => .error e
  | .ok s =>
      .ok (mat.set i j (recurrenceCellG scoring.gap_open s
        (mat.get (i - 1) (j - 1)).score (mat.get (i - 1) j).score (mat.get i (j - 1)).score))

/-- The inner loop `for j in 1..=m` of the global fill, processing columns
`j, j+1, …, j+cnt-1` of row `i`. -/
def fillRowG (scoring : ScoringConfig) (seq1 seq2 : List Nat) (i : Nat) :
    Nat → Nat → DPMatrix → Except AlignmentError DPMatrix
  | _, 0, mat => .ok mat
  | j, cnt + 1, mat =>
      match fillCellG scoring seq1 seq2 i j mat with
      | .error e => .error e
      | .ok mat1 => fillRowG scoring seq1 seq2 i (j + 1) cnt mat1

/-- The outer loop `for i in 1..=n` of the global fill, processing rows
`i, i+1, …, i+cnt-1`. -/
def fillRowsG (scoring : ScoringConfig) (seq1 seq2 : List Nat) :
    Nat → Nat → DPMatrix → Except AlignmentError DPMatrix
  | _, 0, mat => .ok mat
  | i, cnt + 1, mat =>
      match fillRowG scoring seq1 seq2 i 1 seq2.length mat with
      | .error e => .error e
      | .ok mat1 => fillRowsG scoring seq1 seq2 (i + 1) cnt mat1

/-- The state threaded through the local fill: the matrix plus the running
maximum score and the positions attaining it. -/
structure LocalFillState where
  mat : DPMatrix
  maxScore : Int
  maxPositions : List (Nat × Nat)

/-- One iteration of the inner loop of the local fill: compute and store cell
`(i, j)` and update the running maximum exactly as the source does. -/
def fillCellL (scoring : ScoringConfig) (seq1 seq2 : List Nat) (i j : Nat)
    (st : LocalFillState) : Except AlignmentError LocalFillState :=
  match scoring.substitution_score (seq1.getD (i - 1) 0) (seq2.getD (j - 1) 0) with
  | .error e => .error e
  | .ok s =>
      let cell := recurrenceCellL scoring.gap_open s
        (st.mat.get (i - 1) (j - 1)).score (st.mat.get (i - 1) j).score
        (st.mat.get i (j - 1)).score
      let mat1 := st.mat.set i j cell
      if st.maxScore < cell.score then
        .ok ⟨mat1, cell.score, if 0 < cell.score then [(i, j)] else []⟩
      else if cell.score == st.maxScore && decide (0 < cell.score) then
        .ok ⟨mat1, st.maxScore, st.maxPositions ++ [(i, j)]⟩
      else
        .ok ⟨mat1, st.maxScore, st.maxPositions⟩

/-- The inner loop `for j in 1..=m` of the local fill. -/
def fillRowL (scoring : ScoringConfig) (seq1 seq2 : List Nat) (i : Nat) :
    Nat → Nat → LocalFillState → Except AlignmentError LocalFillState
  | _, 0, st => .ok st
  | j, cnt + 1, st =>
      match fillCellL scoring seq1 seq2 i j st with
      | .error e => .error e
      | .ok st1 => fillRowL scoring seq1 seq2 i (j + 1) cnt st1

/-- The outer loop `for i in 1..=n` of the local fill. -/
def fillRowsL (scoring : ScoringConfig) (seq1 seq2 : List Nat) :
    Nat → Nat → LocalFillState → Except AlignmentError LocalFillState
  | _, 0, st => .ok st
  | i, cnt + 1, st =>
      match fillRowL scoring seq1 seq2 i 1 seq2.length st with
      | .error e => .error e
      | .ok st1 => fillRowsL scoring seq1 seq2 (i + 1) cnt st1

/-- `fill_matrix_linear`: fill the matrix in place (modelled by returning the
new matrix) and produce the `FillResult`.  The global branch reports the score
of cell `(n, m)` and no positions; the local branch reports the tracked
running maximum and its positions. -/
def fill_matrix_linear (mat : DPMatrix) (seq1 seq2 : List Nat)
    (scoring : ScoringConfig) (isLocal : Bool) :
    Except AlignmentError (DPMatrix × FillResult) :=
  if isLocal then
    match fillRowsL scoring seq1 seq2 1 seq1.length ⟨mat, 0, []⟩ with
    | .error e => .error e
    | .ok st => .ok (st.mat, ⟨st.maxScore, st.maxPositions⟩)
  else
    match fillRowsG scoring seq1 seq2 1 seq1.length mat with
    | .error e => .error e
    | .ok mat1 => .ok (mat1, ⟨(mat1.get seq1.length seq2.length).score, []⟩)

/-- `traceback_recursive` (alignment.rs).  The recursion strictly decreases
`i + j`; the extra fuel argument, always supplied as `i + j + 1` by
`traceback_all_paths`, is therefore never exhausted.  Accumulated paths and
alignments are appended at the end, matching the `Vec::push` order. -/
def tracebackRecursive (mat : DPMatrix) (seq1 seq2 : List Nat)
    (stopCond : Nat → Nat → Cell → Bool) (stopOnNoArrows : Bool) :
    Nat → Nat → Nat → TracebackPath → List Nat → List Nat →
    List TracebackPath × List AlignedPair → List TracebackPath × List AlignedPair
  | 0, _, _, _, _, _, acc => acc
  | fuel + 1, i, j, path, aln1, aln2, acc =>
      let path := path.push i j
      let cell := mat.get i j
      if stopCond i j cell || (stopOnNoArrows && cell.arrows.bits == 0) then
        (acc.1 ++ [path], acc.2 ++ [⟨aln1.reverse, aln2.reverse⟩])
      else
        let arrows := cell.arrows
        let acc1 :=
          if arrows.hasDiagonal && decide (0 < i) && decide (0 < j) then
            tracebackRecursive mat seq1 seq2 stopCond stopOnNoArrows fuel (i - 1) (j - 1)
              path (aln1 ++ [seq1.getD (i - 1) 0]) (aln2 ++ [seq2.getD (j - 1) 0]) acc
          else acc
        let acc2 :=
          if arrows.hasUp && decide (0 < i) then
            tracebackRecursive mat seq1 seq2 stopCond stopOnNoArrows fuel (i - 1) j
              path (aln1 ++ [seq1.getD (i - 1) 0]) (aln2 ++ [45]) acc1
          else acc1
        if arrows.hasLeft && decide (0 < j) then
          tracebackRecursive mat seq1 seq2 stopCond stopOnNoArrows fuel i (j - 1)
            path (aln1 ++ [45]) (aln2 ++ [seq2.getD (j - 1) 0]) acc2
        else acc2

/-- `traceback_all_paths`: run the recursive traceback from every start
position, collecting paths and alignments in order. -/
def traceback_all_paths (mat : DPMatrix) (seq1 seq2 : List Nat)
    (start_positions : List (Nat × Nat))
    (stopCond : Nat → Nat → Cell → Bool) (stopOnNoArrows : Bool) :
    List TracebackPath × List AlignedPair :=
  start_positions.foldl
    (fun acc sp =>
      tracebackRecursive mat seq1 seq2 stopCond stopOnNoArrows (sp.1 + sp.2 + 1)
        sp.1 sp.2 ⟨[]⟩ [] [] acc)
    ([], [])

/-- The complete result of an alignment operation (`AlignmentResult`). -/
structure AlignmentResult where
  seq1 : List Nat
  seq2 : List Nat
  scoring : ScoringConfig
  matrix : DPMatrix
  traceback_paths : List TracebackPath
  alignments : List AlignedPair
  final_score : Int

/-- Global alignment algorithm (`GlobalAligner` in aligners.rs). -/
structure GlobalAligner where
  scoring : ScoringConfig

/-- The loop `for i in 1..=n` of `GlobalAligner::initialize_matrix`:
cell `(i, 0)` gets `gap_penalty(i)` with an UP arrow. -/
def gInitCol (scoring : ScoringConfig) : Nat → Nat → DPMatrix → DPMatrix
  | _, 0, mat => mat
  | i, cnt + 1, mat =>
      gInitCol scoring (i + 1) cnt
        (mat.set i 0 (Cell.withArrows (scoring.gap_penalty i) Arrows.new.setUp))

/-- The loop `for j in 1..=m` of `GlobalAligner::initialize_matrix`:
cell `(0, j)` gets `gap_penalty(j)` with a LEFT arrow. -/
def gInitRow (scoring : ScoringConfig) : Nat → Nat → DPMatrix → DPMatrix
  | _, 0, mat => mat
  | j, cnt + 1, mat =>
      gInitRow scoring (j + 1) cnt
        (mat.set 0 j (Cell.withArrows (scoring.gap_penalty j) Arrows.new.setLeft))

/-- `GlobalAligner::initialize_matrix`. -/
def GlobalAligner.init_matrix (a : GlobalAligner) (n m : Nat) : DPMatrix :=
  let mat := DPMatrix.new (n + 1) (m + 1)
  let mat := mat.set 0 0 (Cell.new 0)
  let mat := gInitCol a.scoring 1 n mat
  gInitRow a.scoring 1 m mat

/-- `GlobalAligner::align`. -/
def GlobalAligner.align (a : GlobalAligner) (seq1 seq2 : List Nat) :
    Except AlignmentError AlignmentResult :=
  let n := seq1.length
  let m := seq2.length
  match a.scoring.ensure_linear with
  | .error e => .error e
  | .ok _ =>
  match a.scoring.scorer.validate seq1 with
  | .error e => .error e
  | .ok _ =>
  match a.scoring.scorer.validate seq2 with
  | .error e => .error e
  | .ok _ =>
  match fill_matrix_linear (a.init_matrix n m) seq1 seq2 a.scoring false with
  | .error e => .error e
  | .ok (mat, _) =>
      let final_score := (mat.get n m).score
      let tp := traceback_all_paths mat seq1 seq2 [(n, m)]
        (fun i j _ => (i == 0) && (j == 0)) false
      .ok ⟨seq1, seq2, a.scoring, mat, tp.1, tp.2, final_score⟩

/-- Local alignment algorithm (`LocalAligner` in aligners.rs). -/
structure LocalAligner where
  scoring : ScoringConfig

/-- The loop `for i in 0..=n` of `LocalAligner::initialize_matrix`. -/
def lInitCol : Nat → Nat → DPMatrix → DPMatrix
  | _, 0, mat => mat
  | i, cnt + 1, mat => lInitCol (i + 1) cnt (mat.set i 0 (Cell.new 0))

/-- The loop `for j in 0..=m` of `LocalAligner::initialize_matrix`. -/
def lInitRow : Nat → Nat → DPMatrix → DPMatrix
  | _, 0, mat => mat
  | j, cnt + 1, mat => lInitRow (j + 1) cnt (mat.set 0 j (Cell.new 0))

/-- `LocalAligner::initialize_matrix`: row 0 and column 0 all zero, no
arrows. -/
def LocalAligner.init_matrix (_a : LocalAligner) (n m : Nat) : DPMatrix :=
  lInitRow 0 (m + 1) (lInitCol 0 (n + 1) (DPMatrix.new (n + 1) (m + 1)))

/-- The stop condition of the local traceback: score 0 or the origin. -/
def localStopCond : Nat → Nat → Cell → Bool :=
  fun i j cell => cell.score == 0 || ((i == 0) && (j == 0))

/-- `LocalAligner::align`. -/
def LocalAligner.align (a : LocalAligner) (seq1 seq2 : List Nat) :
    Except AlignmentError AlignmentResult :=
  let n := seq1.length
  let m := seq2.length
  match a.scoring.ensure_linear with
  | .error e => .error e
  | .ok _ =>
  match a.scoring.scorer.validate seq1 with
  | .error e => .error e
  | .ok _ =>
  match a.scoring.scorer.validate seq2 with
  | .error e => .error e
  | .ok _ =>
  match fill_matrix_linear (a.init_matrix n m) seq1 seq2 a.scoring true with
  | .error e => .error e
  | .ok (mat, fr) =>
      let final_score := fr.max_score
      let tp :=
        if 0 < final_score then
          traceback_all_paths mat seq1 seq2 fr.max_positions localStopCond true
        else ([], [])
      .ok ⟨seq1, seq2, a.scoring, mat, tp.1, tp.2, final_score⟩

/-- Whether an alignment call succeeded. -/
def isOkE (r : Except AlignmentError AlignmentResult) : Bool :=
  match r with
  | .ok _ => true
  | .error _ => false

/-- The matrix of a successful alignment call (dummy on error). -/
def matrixOf (r : Except AlignmentError AlignmentResult) : DPMatrix :=
  match r with
  | .ok res => res.matrix
  | .error _ => DPMatrix.new 0 0

/-- The alignments of a successful alignment call (empty on error). -/
def alignmentsOf (r : Except AlignmentError AlignmentResult) : List AlignedPair :=
  match r with
  | .ok res => res.alignments
  | .error _ => []

/-- The traceback paths of a successful alignment call (empty on error). -/
def pathsOf (r : Except AlignmentError AlignmentResult) : List TracebackPath :=
  match r with
  | .ok res => res.traceback_paths
  | .error _ => []

/-- The final score of a successful alignment call (0 on error). -/
def finalScoreOf (r : Except AlignmentError AlignmentResult) : Int :=
  match r with
  | .ok res => res.final_score
  | .error _ => 0

/-- Delete every gap marker byte `'-'` (45) from an aligned byte list. -/
def removeGaps (l : List Nat) : List Nat := l.filter (fun c => c != 45)

/-- The maximum cell score over the whole matrix: fold of `max` over all
row-major cell indices, seeded with cell `(0, 0)`. -/
def matrixMaxScore (mat : DPMatrix) : Int :=
  (List.range (mat.rows * mat.cols)).foldl
    (fun acc k => max acc (mat.get (k / mat.cols) (k % mat.cols)).score)
    ((mat.get 0 0).score)

/-- Adjacency of consecutive traceback steps: the row index, the column
index, or both decrease by exactly 1. -/
def StepAdj (a b : TracebackStep) : Prop :=
  (b.i + 1 = a.i ∧ b.j + 1 = a.j) ∨ (b.i + 1 = a.i ∧ b.j = a.j) ∨ (b.i = a.i ∧ b.j + 1 = a.j)

instance : DecidableRel StepAdj := fun a b => by
  unfold StepAdj
  infer_instance

/-- Modelled from the spec: the PAM1 substitution data restricted to the
residues `A` and `W` (the data file `src/data/pam1.mat` is not under `src/`).
Per the spec and the repository's own tests, PAM1 scores `A` vs `A` as 7 and
the forbidden pair `A` vs `W` as the minimum representable integer; the
`W` vs `W` entry (13) is irrelevant to the theorems below.  Lookup is
case-insensitive, as build.rs generates it. -/
def pam1AW : BuiltinMatrix where
  lookup := fun c =>
    if c = 65 ∨ c = 97 then some 0
    else if c = 87 ∨ c = 119 then some 1
    else none
  dim := 2
  scores := [7, i32Min, i32Min, 13]

/-! ## Basic lemmas about the data structures -/

theorem DPMatrix.get_set (mat : DPMatrix) (i j : Nat) (c : Cell) (a b : Nat) :
    (mat.set i j c).get a b = if a = i ∧ b = j then c else mat.get a b := rfl

theorem DPMatrix.get_set_self (mat : DPMatrix) (i j : Nat) (c : Cell) :
    (mat.set i j c).get i j = c := by
  simp [DPMatrix.get_set]

theorem DPMatrix.get_set_ne (mat : DPMatrix) (i j : Nat) (c : Cell) (a b : Nat)
    (h : ¬(a = i ∧ b = j)) : (mat.set i j c).get a b = mat.get a b := by
  simp [DPMatrix.get_set, h]

theorem DPMatrix.rows_set (mat : DPMatrix) (i j : Nat) (c : Cell) :
    (mat.set i j c).rows = mat.rows := rfl

theorem DPMatrix.cols_set (mat : DPMatrix) (i j : Nat) (c : Cell) :
    (mat.set i j c).cols = mat.cols := rfl

theorem arrowsOf_hasDiagonal (d u l : Bool) : (arrowsOf d u l).hasDiagonal = d := by
  cases d <;> cases u <;> cases l <;> rfl

theorem arrowsOf_hasUp (d u l : Bool) : (arrowsOf d u l).hasUp = u := by
  cases d <;> cases u <;> cases l <;> rfl

theorem arrowsOf_hasLeft (d u l : Bool) : (arrowsOf d u l).hasLeft = l := by
  cases d <;> cases u <;> cases l <;> rfl

theorem arrowsOf_bits_ne_zero (d u l : Bool) (h : d = true ∨ u = true ∨ l = true) :
    (arrowsOf d u l).bits ≠ 0 := by
  cases d <;> cases u <;> cases l <;> simp_all <;> decide

/-- The maximum of the three operands is equal to at least one of them. -/
theorem max3_eq_one (a b c : Int) :
    max (max a b) c = a ∨ max (max a b) c = b ∨ max (max a b) c = c := by
  rcases max_choice (max a b) c with h | h
  · rcases max_choice a b with h2 | h2
    · exact Or.inl (h.trans h2)
    · exact Or.inr (Or.inl (h.trans h2))
  · exact Or.inr (Or.inr h)

/-! ## Matrix initialization -/

theorem gInitCol_get_out (scoring : ScoringConfig) :
    ∀ cnt start mat a b, (b ≠ 0 ∨ a < start ∨ start + cnt ≤ a) →
      (gInitCol scoring start cnt mat).get a b = mat.get a b := by
  intro cnt
  induction cnt with
  | zero => intro start mat a b _; rfl
  | succ cnt ih =>
    intro start mat a b h
    rw [gInitCol, ih (start + 1) _ a b (by omega)]
    exact DPMatrix.get_set_ne _ _ _ _ _ _ (by rintro ⟨rfl, rfl⟩; omega)

theorem gInitCol_get_in (scoring : ScoringConfig) :
    ∀ cnt start mat a, start ≤ a → a < start + cnt →
      (gInitCol scoring start cnt mat).get a 0 =
        Cell.withArrows (scoring.gap_penalty a) Arrows.new.setUp := by
  intro cnt
  induction cnt with
  | zero => intro start mat a h1 h2; omega
  | succ cnt ih =>
    intro start mat a h1 h2
    rw [gInitCol]
    by_cases ha : a = start
    · rw [gInitCol_get_out scoring cnt (start + 1) _ a 0 (by omega), ha]
      exact DPMatrix.get_set_self _ _ _ _
    · exact ih _ _ _ (by omega) (by omega)

theorem gInitRow_get_out (scoring : ScoringConfig) :
    ∀ cnt start mat a b, (a ≠ 0 ∨ b < start ∨ start + cnt ≤ b) →
      (gInitRow scoring start cnt mat).get a b = mat.get a b := by
  intro cnt
  induction cnt with
  | zero => intro start mat a b _; rfl
  | succ cnt ih =>
    intro start mat a b h
    rw [gInitRow, ih (start + 1) _ a b (by omega)]
    exact DPMatrix.get_set_ne _ _ _ _ _ _ (by rintro ⟨rfl, rfl⟩; omega)

theorem gInitRow_get_in (scoring : ScoringConfig) :
    ∀ cnt start mat b, start ≤ b → b < start + cnt →
      (gInitRow scoring start cnt mat).get 0 b =
        Cell.withArrows (scoring.gap_penalty b) Arrows.new.setLeft := by
  intro cnt
  induction cnt with
  | zero => intro start mat b h1 h2; omega
  | succ cnt ih =>
    intro start mat b h1 h2
    rw [gInitRow]
    by_cases hb : b = start
    · rw [gInitRow_get_out scoring cnt (start + 1) _ 0 b (by omega), hb]
      exact DPMatrix.get_set_self _ _ _ _
    · exact ih _ _ _ (by omega) (by omega)

theorem lInitCol_get_out :
    ∀ cnt start mat a b, (b ≠ 0 ∨ a < start ∨ start + cnt ≤ a) →
      (lInitCol start cnt mat).get a b = mat.get a b := by
  intro cnt
  induction cnt with
  | zero => intro start mat a b _; rfl
  | succ cnt ih =>
    intro start mat a b h
    rw [lInitCol, ih (start + 1) _ a b (by omega)]
    exact DPMatrix.get_set_ne _ _ _ _ _ _ (by rintro ⟨rfl, rfl⟩; omega)

theorem lInitCol_get_in :
    ∀ cnt start mat a, start ≤ a → a < start + cnt →
      (lInitCol start cnt mat).get a 0 = Cell.new 0 := by
  intro cnt
  induction cnt with
  | zero => intro start mat a h1 h2; omega
  | succ cnt ih =>
    intro start mat a h1 h2
    rw [lInitCol]
    by_cases ha : a = start
    · rw [lInitCol_get_out cnt (start + 1) _ a 0 (by omega), ha]
      exact DPMatrix.get_set_self _ _ _ _
    · exact ih _ _ _ (by omega) (by omega)

theorem lInitRow_get_out :
    ∀ cnt start mat a b, (a ≠ 0 ∨ b < start ∨ start + cnt ≤ b) →
      (lInitRow start cnt mat).get a b = mat.get a b := by
  intro cnt
  induction cnt with
  | zero => intro start mat a b _; rfl
  | succ cnt ih =>
    intro start mat a b h
    rw [lInitRow, ih (start + 1) _ a b (by omega)]
    exact DPMatrix.get_set_ne _ _ _ _ _ _ (by rintro ⟨rfl, rfl⟩; omega)

theorem lInitRow_get_in :
    ∀ cnt start mat b, start ≤ b → b < start + cnt →
      (lInitRow start cnt mat).get 0 b = Cell.new 0 := by
  intro cnt
  induction cnt with
  | zero => intro start mat b h1 h2; omega
  | succ cnt ih =>
    intro start mat b h1 h2
    rw [lInitRow]
    by_cases hb : b = start
    · rw [lInitRow_get_out cnt (start + 1) _ 0 b (by omega), hb]
      exact DPMatrix.get_set_self _ _ _ _
    · exact ih _ _ _ (by omega) (by omega)

/-- Cell `(0, 0)` of the initialized global matrix. -/
theorem globalInit_get_origin (cfg : ScoringConfig) (n m : Nat) :
    (GlobalAligner.init_matrix ⟨cfg⟩ n m).get 0 0 = Cell.new 0 := by
  show (gInitRow cfg 1 m (gInitCol cfg 1 n
    ((DPMatrix.new (n + 1) (m + 1)).set 0 0 (Cell.new 0)))).get 0 0 = _
  rw [gInitRow_get_out cfg m 1 _ 0 0 (by omega),
      gInitCol_get_out cfg n 1 _ 0 0 (by omega)]
  exact DPMatrix.get_set_self _ _ _ _

/-- Cell `(i, 0)` of the initialized global matrix for `1 ≤ i ≤ n`. -/
theorem globalInit_get_col (cfg : ScoringConfig) (n m i : Nat) (h1 : 1 ≤ i) (h2 : i ≤ n) :
    (GlobalAligner.init_matrix ⟨cfg⟩ n m).get i 0 =
      Cell.withArrows (cfg.gap_penalty i) Arrows.new.setUp := by
  show (gInitRow cfg 1 m (gInitCol cfg 1 n
    ((DPMatrix.new (n + 1) (m + 1)).set 0 0 (Cell.new 0)))).get i 0 = _
  rw [gInitRow_get_out cfg m 1 _ i 0 (by omega)]
  exact gInitCol_get_in cfg n 1 _ i (by omega) (by omega)

/-- Cell `(0, j)` of the initialized global matrix for `1 ≤ j ≤ m`. -/
theorem globalInit_get_row (cfg : ScoringConfig) (n m j : Nat) (h1 : 1 ≤ j) (h2 : j ≤ m) :
    (GlobalAligner.init_matrix ⟨cfg⟩ n m).get 0 j =
      Cell.withArrows (cfg.gap_penalty j) Arrows.new.setLeft := by
  show (gInitRow cfg 1 m (gInitCol cfg 1 n
    ((DPMatrix.new (n + 1) (m + 1)).set 0 0 (Cell.new 0)))).get 0 j = _
  exact gInitRow_get_in cfg m 1 _ j (by omega) (by omega)

/-- Every border cell of the initialized local matrix is `Cell::new(0)`. -/
theorem localInit_get_zero (la : LocalAligner) (n m x y : Nat)
    (h : (x = 0 ∧ y ≤ m) ∨ (y = 0 ∧ x ≤ n)) :
    (la.init_matrix n m).get x y = Cell.new 0 := by
  show (lInitRow 0 (m + 1) (lInitCol 0 (n + 1) (DPMatrix.new (n + 1) (m + 1)))).get x y = _
  by_cases hx : x = 0
  · subst hx
    have hy : y ≤ m := by
      rcases h with ⟨_, hy⟩ | ⟨rfl, _⟩
      · exact hy
      · omega
    exact lInitRow_get_in (m + 1) 0 _ y (by omega) (by omega)
  · have hy : y = 0 ∧ x ≤ n := by
      rcases h with ⟨hx0, _⟩ | hh
      · exact absurd hx0 hx
      · exact hh
    obtain ⟨rfl, hxn⟩ := hy
    rw [lInitRow_get_out (m + 1) 0 _ x 0 (Or.inl hx)]
    exact lInitCol_get_in (n + 1) 0 _ x (by omega) (by omega)

theorem gInitCol_dims (scoring : ScoringConfig) :
    ∀ cnt start mat, (gInitCol scoring start cnt mat).rows = mat.rows ∧
      (gInitCol scoring start cnt mat).cols = mat.cols := by
  intro cnt
  induction cnt with
  | zero => intro start mat; exact ⟨rfl, rfl⟩
  | succ cnt ih => intro start mat; rw [gInitCol]; exact ih _ _

theorem gInitRow_dims (scoring : ScoringConfig) :
    ∀ cnt start mat, (gInitRow scoring start cnt mat).rows = mat.rows ∧
      (gInitRow scoring start cnt mat).cols = mat.cols := by
  intro cnt
  induction cnt with
  | zero => intro start mat; exact ⟨rfl, rfl⟩
  | succ cnt ih => intro start mat; rw [gInitRow]; exact ih _ _

theorem lInitCol_dims :
    ∀ cnt start mat, (lInitCol start cnt mat).rows = mat.rows ∧
      (lInitCol start cnt mat).cols = mat.cols := by
  intro cnt
  induction cnt with
  | zero => intro start mat; exact ⟨rfl, rfl⟩
  | succ cnt ih => intro start mat; rw [lInitCol]; exact ih _ _

theorem lInitRow_dims :
    ∀ cnt start mat, (lInitRow start cnt mat).rows = mat.rows ∧
      (lInitRow start cnt mat).cols = mat.cols := by
  intro cnt
  induction cnt with
  | zero => intro start mat; exact ⟨rfl, rfl⟩
  | succ cnt ih => intro start mat; rw [lInitRow]; exact ih _ _

/-- Dimensions of the initialized global matrix. -/
theorem globalInit_dims (cfg : ScoringConfig) (n m : Nat) :
    (GlobalAligner.init_matrix ⟨cfg⟩ n m).rows = n + 1 ∧
      (GlobalAligner.init_matrix ⟨cfg⟩ n m).cols = m + 1 := by
  constructor
  · show (gInitRow cfg 1 m (gInitCol cfg 1 n
      ((DPMatrix.new (n + 1) (m + 1)).set 0 0 (Cell.new 0)))).rows = n + 1
    rw [(gInitRow_dims cfg m 1 _).1, (gInitCol_dims cfg n 1 _).1]
    rfl
  · show (gInitRow cfg 1 m (gInitCol cfg 1 n
      ((DPMatrix.new (n + 1) (m + 1)).set 0 0 (Cell.new 0)))).cols = m + 1
    rw [(gInitRow_dims cfg m 1 _).2, (gInitCol_dims cfg n 1 _).2]
    rfl

/-- Dimensions of the initialized local matrix. -/
theorem localInit_dims (la : LocalAligner) (n m : Nat) :
    (la.init_matrix n m).rows = n + 1 ∧ (la.init_matrix n m).cols = m + 1 := by
  constructor
  · show (lInitRow 0 (m + 1) (lInitCol 0 (n + 1) (DPMatrix.new (n + 1) (m + 1)))).rows = n + 1
    rw [(lInitRow_dims (m + 1) 0 _).1, (lInitCol_dims (n + 1) 0 _).1]
    rfl
  · show (lInitRow 0 (m + 1) (lInitCol 0 (n + 1) (DPMatrix.new (n + 1) (m + 1)))).cols = m + 1
    rw [(lInitRow_dims (m + 1) 0 _).2, (lInitCol_dims (n + 1) 0 _).2]
    rfl

/-! ## Global fill characterization -/

theorem fillRowG_ok (scoring : ScoringConfig) (seq1 seq2 : List Nat) (i : Nat) (hi : 0 < i) :
    ∀ cnt j mat mat', 0 < j →
      fillRowG scoring seq1 seq2 i j cnt mat = .ok mat' →
      ((∀ a b, (a ≠ i ∨ b < j ∨ j + cnt ≤ b) → mat'.get a b = mat.get a b)
        ∧ mat'.rows = mat.rows ∧ mat'.cols = mat.cols
        ∧ ∀ jj, j ≤ jj → jj < j + cnt →
          ∃ s, scoring.substitution_score (seq1.getD (i - 1) 0) (seq2.getD (jj - 1) 0) = .ok s ∧
            mat'.get i jj = recurrenceCellG scoring.gap_open s
              (mat'.get (i - 1) (jj - 1)).score (mat'.get (i - 1) jj).score
              (mat'.get i (jj - 1)).score) := by
  intro cnt
  induction cnt with
  | zero =>
    intro j mat mat' hj hok
    rw [fillRowG] at hok
    injection hok with h
    subst h
    exact ⟨fun a b _ => rfl, rfl, rfl, fun jj h1 h2 => by omega⟩
  | succ cnt ih =>
    intro j mat mat' hj hok
    rw [fillRowG] at hok
    cases hcell : fillCellG scoring seq1 seq2 i j mat with
    | error e => rw [hcell] at hok; exact Except.noConfusion hok
    | ok mat1 =>
      rw [hcell] at hok
      cases hs : scoring.substitution_score (seq1.getD (i - 1) 0) (seq2.getD (j - 1) 0) with
      | error e => rw [fillCellG, hs] at hcell; exact Except.noConfusion hcell
      | ok s =>
        rw [fillCellG, hs] at hcell
        injection hcell with hmat1
        subst hmat1
        obtain ⟨frame, hrows, hcols, spec⟩ := ih (j + 1) _ mat' (by omega) hok
        refine ⟨?_, hrows.trans rfl, hcols.trans rfl, ?_⟩
        · intro a b hcond
          rw [frame a b (by omega), DPMatrix.get_set_ne mat i j _ a b (by omega)]
        · intro jj hjj1 hjj2
          by_cases hjje : jj = j
          · subst hjje
            refine ⟨s, hs, ?_⟩
            rw [frame i jj (by omega), frame (i - 1) (jj - 1) (by omega),
                frame (i - 1) jj (by omega), frame i (jj - 1) (by omega),
                DPMatrix.get_set_self,
                DPMatrix.get_set_ne mat i jj _ (i - 1) (jj - 1) (by omega),
                DPMatrix.get_set_ne mat i jj _ (i - 1) jj (by omega),
                DPMatrix.get_set_ne mat i jj _ i (jj - 1) (by omega)]
          · exact spec jj (by omega) (by omega)

theorem fillRowsG_ok (scoring : ScoringConfig) (seq1 seq2 : List Nat) :
    ∀ cnt i mat mat', 0 < i →
      fillRowsG scoring seq1 seq2 i cnt mat = .ok mat' →
      ((∀ a b, (a < i ∨ i + cnt ≤ a ∨ b = 0 ∨ seq2.length < b) → mat'.get a b = mat.get a b)
        ∧ mat'.rows = mat.rows ∧ mat'.cols = mat.cols
        ∧ ∀ ii jj, i ≤ ii → ii < i + cnt → 1 ≤ jj → jj ≤ seq2.length →
          ∃ s, scoring.substitution_score (seq1.getD (ii - 1) 0) (seq2.getD (jj - 1) 0) = .ok s ∧
            mat'.get ii jj = recurrenceCellG scoring.gap_open s
              (mat'.get (ii - 1) (jj - 1)).score (mat'.get (ii - 1) jj).score
              (mat'.get ii (jj - 1)).score) := by
  intro cnt
  induction cnt with
  | zero =>
    intro i mat mat' hi hok
    rw [fillRowsG] at hok
    injection hok with h
    subst h
    exact ⟨fun a b _ => rfl, rfl, rfl, fun ii jj h1 h2 _ _ => by omega⟩
  | succ cnt ih =>
    intro i mat mat' hi hok
    rw [fillRowsG] at hok
    cases hrow : fillRowG scoring seq1 seq2 i 1 seq2.length mat with
    | error e => rw [hrow] at hok; exact Except.noConfusion hok
    | ok mat1 =>
      rw [hrow] at hok
      obtain ⟨frameR, hrowsR, hcolsR, specR⟩ :=
        fillRowG_ok scoring seq1 seq2 i hi seq2.length 1 mat mat1 (by omega) hrow
      obtain ⟨frame, hrows, hcols, spec⟩ := ih (i + 1) mat1 mat' (by omega) hok
      refine ⟨?_, hrows.trans hrowsR, hcols.trans hcolsR, ?_⟩
      · intro a b hcond
        rw [frame a b (by omega), frameR a b (by omega)]
      · intro ii jj h1 h2 h3 h4
        by_cases hiie : ii = i
        · subst hiie
          obtain ⟨s, hs, hcell⟩ := specR jj (by omega) (by omega)
          refine ⟨s, hs, ?_⟩
          rw [frame ii jj (by omega), frame (ii - 1) (jj - 1) (by omega),
              frame (ii - 1) jj (by omega), frame ii (jj - 1) (by omega)]
          exact hcell
        · exact spec ii jj (by omega) (by omega) h3 h4

/-- Decomposition of a successful `GlobalAligner::align` call. -/
theorem globalAlign_ok_decomp (cfg : ScoringConfig) (s1 s2 : List Nat)
    (h : isOkE (GlobalAligner.align ⟨cfg⟩ s1 s2) = true) :
    ∃ mat, fillRowsG cfg s1 s2 1 s1.length
        (GlobalAligner.init_matrix ⟨cfg⟩ s1.length s2.length) = .ok mat ∧
      GlobalAligner.align ⟨cfg⟩ s1 s2 = .ok ⟨s1, s2, cfg, mat,
        (traceback_all_paths mat s1 s2 [(s1.length, s2.length)]
          (fun i j _ => (i == 0) && (j == 0)) false).1,
        (traceback_all_paths mat s1 s2 [(s1.length, s2.length)]
          (fun i j _ => (i == 0) && (j == 0)) false).2,
        (mat.get s1.length s2.length).score⟩ := by
  simp only [GlobalAligner.align] at h ⊢
  cases hel : cfg.ensure_linear with
  | error e => simp [hel, isOkE] at h
  | ok u =>
    simp only [hel] at h ⊢
    cases hv1 : cfg.scorer.validate s1 with
    | error e => simp [hv1, isOkE] at h
    | ok u1 =>
      simp only [hv1] at h ⊢
      cases hv2 : cfg.scorer.validate s2 with
      | error e => simp [hv2, isOkE] at h
      | ok u2 =>
        simp only [hv2] at h ⊢
        simp only [fill_matrix_linear, Bool.false_eq_true, if_false] at h ⊢
        cases hfill : fillRowsG cfg s1 s2 1 s1.length
            (GlobalAligner.init_matrix ⟨cfg⟩ s1.length s2.length) with
        | error e => simp [hfill, isOkE] at h
        | ok mat =>
          simp only [hfill]
          exact ⟨mat, rfl, rfl⟩

/-- Decomposition of a successful `LocalAligner::align` call. -/
theorem localAlign_ok_decomp (cfg : ScoringConfig) (s1 s2 : List Nat)
    (h : isOkE (LocalAligner.align ⟨cfg⟩ s1 s2) = true) :
    ∃ st : LocalFillState, fillRowsL cfg s1 s2 1 s1.length
        ⟨LocalAligner.init_matrix ⟨cfg⟩ s1.length s2.length, 0, []⟩ = .ok st ∧
      LocalAligner.align ⟨cfg⟩ s1 s2 = .ok ⟨s1, s2, cfg, st.mat,
        (if 0 < st.maxScore then
          traceback_all_paths st.mat s1 s2 st.maxPositions localStopCond true
        else ([], [])).1,
        (if 0 < st.maxScore then
          traceback_all_paths st.mat s1 s2 st.maxPositions localStopCond true
        else ([], [])).2,
        st.maxScore⟩ := by
  simp only [LocalAligner.align] at h ⊢
  cases hel : cfg.ensure_linear with
  | error e => simp [hel, isOkE] at h
  | ok u =>
    simp only [hel] at h ⊢
    cases hv1 : cfg.scorer.validate s1 with
    | error e => simp [hv1, isOkE] at h
    | ok u1 =>
      simp only [hv1] at h ⊢
      cases hv2 : cfg.scorer.validate s2 with
      | error e => simp [hv2, isOkE] at h
      | ok u2 =>
        simp only [hv2] at h ⊢
        simp only [fill_matrix_linear, if_true] at h ⊢
        cases hfill : fillRowsL cfg s1 s2 1 s1.length
            ⟨LocalAligner.init_matrix ⟨cfg⟩ s1.length s2.length, 0, []⟩ with
        | error e => simp [hfill, isOkE] at h
        | ok st =>
          simp only [hfill]
          exact ⟨st, rfl, rfl⟩

instance (α β : Type) [DecidableEq α] [DecidableEq β] : DecidableEq (Except α β) :=
  fun a b =>
    match a, b with
    | .ok x, .ok y =>
        if h : x = y then isTrue (by rw [h])
        else isFalse (by intro hc; injection hc; contradiction)
    | .error x, .error y =>
        if h : x = y then isTrue (by rw [h])
        else isFalse (by intro hc; injection hc; contradiction)
    | .ok _, .error _ => isFalse (fun hc => Except.noConfusion hc)
    | .error _, .ok _ => isFalse (fun hc => Except.noConfusion hc)

theorem recurrenceCellG_score (gap s d u l : Int) :
    (recurrenceCellG gap s d u l).score =
      max (max (satAdd d s) (satAdd u gap)) (satAdd l gap) := rfl

theorem recurrenceCellG_arrows (gap s d u l : Int) :
    (recurrenceCellG gap s d u l).arrows =
      arrowsOf (satAdd d s == max (max (satAdd d s) (satAdd u gap)) (satAdd l gap))
        (satAdd u gap == max (max (satAdd d s) (satAdd u gap)) (satAdd l gap))
        (satAdd l gap == max (max (satAdd d s) (satAdd u gap)) (satAdd l gap)) := rfl

theorem recurrenceCellL_score (gap s d u l : Int) :
    (recurrenceCellL gap s d u l).score =
      max (max (max (satAdd d s) (satAdd u gap)) (satAdd l gap)) 0 := rfl

theorem recurrenceCellL_arrows (gap s d u l : Int) :
    (recurrenceCellL gap s d u l).arrows =
      (if 0 < max (max (max (satAdd d s) (satAdd u gap)) (satAdd l gap)) 0 then
        arrowsOf
          (satAdd d s == max (max (max (satAdd d s) (satAdd u gap)) (satAdd l gap)) 0)
          (satAdd u gap == max (max (max (satAdd d s) (satAdd u gap)) (satAdd l gap)) 0)
          (satAdd l gap == max (max (max (satAdd d s) (satAdd u gap)) (satAdd l gap)) 0)
      else Arrows.new) := rfl

/-! ## Claim C1: the global fill recurrence -/

/-- C1: for validated sequences and a linear scoring config, after the
global-mode fill every interior cell `(i, j)` (with `1 ≤ i ≤ n`,
`1 ≤ j ≤ m`) has score equal to the maximum of `diag`, `up` and `left`
(saturating sums of the predecessor scores with the substitution score
resp. `gap_open`), and the arrow bitmask contains DIAGONAL, UP, LEFT exactly
for the operands equal to that maximum (all ties). -/
theorem claim_C1 (cfg : ScoringConfig) (s1 s2 : List Nat) (i j : Nat) (s : Int)
    (hOk : isOkE (GlobalAligner.align ⟨cfg⟩ s1 s2) = true)
    (hi1 : 1 ≤ i) (hin : i ≤ s1.length) (hj1 : 1 ≤ j) (hjm : j ≤ s2.length)
    (hs : cfg.substitution_score (s1.getD (i - 1) 0) (s2.getD (j - 1) 0) = .ok s) :
    ∀ mat diag up left, mat = matrixOf (GlobalAligner.align ⟨cfg⟩ s1 s2) →
      diag = satAdd (mat.get (i - 1) (j - 1)).score s →
      up = satAdd (mat.get (i - 1) j).score cfg.gap_open →
      left = satAdd (mat.get i (j - 1)).score cfg.gap_open →
      (mat.get i j).score = max (max diag up) left
      ∧ ((mat.get i j).arrows.hasDiagonal = true ↔ diag = max (max diag up) left)
      ∧ ((mat.get i j).arrows.hasUp = true ↔ up = max (max diag up) left)
      ∧ ((mat.get i j).arrows.hasLeft = true ↔ left = max (max diag up) left) := by
  intro mat diag up left hmat hdiag hup hleft
  subst hmat
  subst hdiag
  subst hup
  subst hleft
  obtain ⟨mat0, hfill, halign⟩ := globalAlign_ok_decomp cfg s1 s2 hOk
  have hmo : matrixOf (GlobalAligner.align ⟨cfg⟩ s1 s2) = mat0 := by rw [halign]; rfl
  rw [hmo]
  obtain ⟨_, _, _, spec⟩ := fillRowsG_ok cfg s1 s2 s1.length 1 _ mat0 (by omega) hfill
  obtain ⟨s2v, hs2v, hcell⟩ := spec i j hi1 (by omega) hj1 hjm
  rw [hs] at hs2v
  injection hs2v with hss
  subst hss
  rw [hcell]
  refine ⟨recurrenceCellG_score _ _ _ _ _, ?_, ?_, ?_⟩
  · rw [recurrenceCellG_arrows, arrowsOf_hasDiagonal]
    exact beq_iff_eq
  · rw [recurrenceCellG_arrows, arrowsOf_hasUp]
    exact beq_iff_eq
  · rw [recurrenceCellG_arrows, arrowsOf_hasLeft]
    exact beq_iff_eq

/-- Shorthand for the default scoring configuration used by witnesses. -/
def dcfg : ScoringConfig := ScoringConfig.defaultConfig

/-- Witness for C1: default config, "A" vs "A", interior cell (1, 1). -/
theorem claim_C1_witness :
    (isOkE (GlobalAligner.align ⟨dcfg⟩ [65] [65]) = true) ∧
    (1 ≤ 1) ∧ (1 ≤ [65].length) ∧
    (dcfg.substitution_score ([65].getD 0 0) ([65].getD 0 0) = .ok 3) ∧
    (((matrixOf (GlobalAligner.align ⟨dcfg⟩ [65] [65])).get 1 1).score =
      max (max (satAdd ((matrixOf (GlobalAligner.align ⟨dcfg⟩ [65] [65])).get 0 0).score 3)
          (satAdd ((matrixOf (GlobalAligner.align ⟨dcfg⟩ [65] [65])).get 0 1).score dcfg.gap_open))
        (satAdd ((matrixOf (GlobalAligner.align ⟨dcfg⟩ [65] [65])).get 1 0).score dcfg.gap_open)) :=
  ⟨by decide, by decide, by decide, by decide,
    (claim_C1 dcfg [65] [65] 1 1 3 (by decide) (by decide) (by decide) (by decide) (by decide)
      (by decide) _ _ _ _ rfl rfl rfl rfl).1⟩

/-! ## Claim C6: affine configurations are rejected first -/

/-- C6: whenever `gap_open ≠ gap_extend`, both aligners return the
configuration error whose message names both gap values, for every pair of
input sequences — in particular even when a sequence contains characters
invalid for the scorer, since the check precedes validation and any matrix
work. -/
theorem claim_C6 (scorer : SubstitutionScorer) (g1 g2 : Int) (s1 s2 : List Nat)
    (h : g1 ≠ g2) :
    GlobalAligner.align ⟨⟨scorer, g1, g2⟩⟩ s1 s2 = .error (.Other (affineMsg g1 g2)) ∧
    LocalAligner.align ⟨⟨scorer, g1, g2⟩⟩ s1 s2 = .error (.Other (affineMsg g1 g2)) := by
  have hel : ScoringConfig.ensure_linear ⟨scorer, g1, g2⟩ =
      .error (.Other (affineMsg g1 g2)) := by
    unfold ScoringConfig.ensure_linear ScoringConfig.is_affine
    rw [if_pos (bne_iff_ne.mpr h)]
  constructor
  · simp only [GlobalAligner.align, hel]
  · simp only [LocalAligner.align, hel]

/-- A matrix whose alphabet is empty (every lookup fails); used by witnesses
to exercise the invalid-character paths. -/
def emptyMatrix : BuiltinMatrix := ⟨fun _ => none, 0, []⟩

/-- Witness for C6: gap -2 / -1 with a matrix scorer and a sequence whose
first byte is invalid for it. -/
theorem claim_C6_witness :
    ((-2 : Int) ≠ -1) ∧
    (GlobalAligner.align ⟨⟨.Matrix emptyMatrix, -2, -1⟩⟩ [88] [65] =
        .error (.Other (affineMsg (-2) (-1))) ∧
      LocalAligner.align ⟨⟨.Matrix emptyMatrix, -2, -1⟩⟩ [88] [65] =
        .error (.Other (affineMsg (-2) (-1)))) :=
  ⟨by decide, claim_C6 (.Matrix emptyMatrix) (-2) (-1) [88] [65] (by decide)⟩

/-! ## Claim C7: invalid-character handling -/

theorem validateMatrixSeq_eq_error (bm : BuiltinMatrix) :
    ∀ (seq : List Nat) (c : Nat),
      seq.find? (fun x => (bm.lookup x).isNone) = some c →
      validateMatrixSeq bm seq = .error (.InvalidCharacter c) := by
  intro seq
  induction seq with
  | nil => intro c h; simp at h
  | cons a rest ih =>
    intro c h
    rw [validateMatrixSeq]
    simp only [List.find?] at h
    cases ha : (bm.lookup a).isNone with
    | true =>
      rw [ha] at h
      simp only at h
      injection h with h
      rw [if_pos rfl, h]
    | false =>
      rw [ha] at h
      simp only at h
      rw [if_neg (by simp)]
      exact ih c h

theorem validateMatrixSeq_eq_ok (bm : BuiltinMatrix) :
    ∀ (seq : List Nat),
      seq.find? (fun x => (bm.lookup x).isNone) = none →
      validateMatrixSeq bm seq = .ok () := by
  intro seq
  induction seq with
  | nil => intro _; rfl
  | cons a rest ih =>
    intro h
    rw [validateMatrixSeq]
    simp only [List.find?] at h
    cases ha : (bm.lookup a).isNone with
    | true =>
      rw [ha] at h
      simp only at h
      exact Option.noConfusion h
    | false =>
      rw [ha] at h
      simp only at h
      rw [if_neg (by simp)]
      exact ih h

theorem ensure_linear_of_eq (scorer : SubstitutionScorer) (g : Int) :
    ScoringConfig.ensure_linear ⟨scorer, g, g⟩ = .ok () := by
  unfold ScoringConfig.ensure_linear ScoringConfig.is_affine
  rw [if_neg]
  simp

/-- The simple scorer always produces a score. -/
theorem simple_score_ok (ms mms g1 g2 : Int) (a b : Nat) :
    ∃ s, (ScoringConfig.mk (.Simple ms mms) g1 g2).substitution_score a b = .ok s := by
  by_cases h : toAsciiUppercase a = toAsciiUppercase b
  · exact ⟨ms, by simp [ScoringConfig.substitution_score, SubstitutionScorer.score, h]⟩
  · exact ⟨mms, by simp [ScoringConfig.substitution_score, SubstitutionScorer.score, h]⟩

theorem fillRowG_never_err (scoring : ScoringConfig) (seq1 seq2 : List Nat)
    (hscore : ∀ a b, ∃ s, scoring.substitution_score a b = .ok s) (i : Nat) :
    ∀ cnt j mat, ∃ mat', fillRowG scoring seq1 seq2 i j cnt mat = .ok mat' := by
  intro cnt
  induction cnt with
  | zero => intro j mat; exact ⟨mat, rfl⟩
  | succ cnt ih =>
    intro j mat
    obtain ⟨s, hs⟩ := hscore (seq1.getD (i - 1) 0) (seq2.getD (j - 1) 0)
    have hcell : fillCellG scoring seq1 seq2 i j mat = .ok (mat.set i j
        (recurrenceCellG scoring.gap_open s (mat.get (i - 1) (j - 1)).score
          (mat.get (i - 1) j).score (mat.get i (j - 1)).score)) := by
      rw [fillCellG, hs]
    rw [fillRowG, hcell]
    exact ih (j + 1) _

theorem fillRowsG_never_err (scoring : ScoringConfig) (seq1 seq2 : List Nat)
    (hscore : ∀ a b, ∃ s, scoring.substitution_score a b = .ok s) :
    ∀ cnt i mat, ∃ mat', fillRowsG scoring seq1 seq2 i cnt mat = .ok mat' := by
  intro cnt
  induction cnt with
  | zero => intro i mat; exact ⟨mat, rfl⟩
  | succ cnt ih =>
    intro i mat
    obtain ⟨mat1, hrow⟩ := fillRowG_never_err scoring seq1 seq2 hscore i seq2.length 1 mat
    rw [fillRowsG, hrow]
    exact ih (i + 1) mat1

theorem fillRowL_never_err (scoring : ScoringConfig) (seq1 seq2 : List Nat)
    (hscore : ∀ a b, ∃ s, scoring.substitution_score a b = .ok s) (i : Nat) :
    ∀ cnt j st, ∃ st', fillRowL scoring seq1 seq2 i j cnt st = .ok st' := by
  intro cnt
  induction cnt with
  | zero => intro j st; exact ⟨st, rfl⟩
  | succ cnt ih =>
    intro j st
    obtain ⟨s, hs⟩ := hscore (seq1.getD (i - 1) 0) (seq2.getD (j - 1) 0)
    rw [fillRowL]
    obtain ⟨st1, hcell⟩ : ∃ st1, fillCellL scoring seq1 seq2 i j st = .ok st1 := by
      rw [fillCellL, hs]
      dsimp only
      split
      · exact ⟨_, rfl⟩
      · split
        · exact ⟨_, rfl⟩
        · exact ⟨_, rfl⟩
    rw [hcell]
    exact ih (j + 1) st1

theorem fillRowsL_never_err (scoring : ScoringConfig) (seq1 seq2 : List Nat)
    (hscore : ∀ a b, ∃ s, scoring.substitution_score a b = .ok s) :
    ∀ cnt i st, ∃ st', fillRowsL scoring seq1 seq2 i cnt st = .ok st' := by
  intro cnt
  induction cnt with
  | zero => intro i st; exact ⟨st, rfl⟩
  | succ cnt ih =>
    intro i st
    obtain ⟨st1, hrow⟩ := fillRowL_never_err scoring seq1 seq2 hscore i seq2.length 1 st
    rw [fillRowsL, hrow]
    exact ih (i + 1) st1

/-- C7: with a matrix scorer under a linear gap config, `align` returns
`InvalidCharacter c` where `c` is the first byte of `seq1` absent from the
matrix lookup map, or — when all of `seq1` is valid — the first such byte of
`seq2`; with the simple scorer, `validate` accepts every byte sequence and
`align` never returns `InvalidCharacter`. -/
theorem claim_C7 (bm : BuiltinMatrix) (g : Int) (s1 s2 : List Nat) :
    (∀ c, s1.find? (fun x => (bm.lookup x).isNone) = some c →
      GlobalAligner.align ⟨⟨.Matrix bm, g, g⟩⟩ s1 s2 = .error (.InvalidCharacter c) ∧
      LocalAligner.align ⟨⟨.Matrix bm, g, g⟩⟩ s1 s2 = .error (.InvalidCharacter c))
    ∧ (∀ c, s1.find? (fun x => (bm.lookup x).isNone) = none →
        s2.find? (fun x => (bm.lookup x).isNone) = some c →
        GlobalAligner.align ⟨⟨.Matrix bm, g, g⟩⟩ s1 s2 = .error (.InvalidCharacter c) ∧
        LocalAligner.align ⟨⟨.Matrix bm, g, g⟩⟩ s1 s2 = .error (.InvalidCharacter c))
    ∧ (∀ (ms mms g1 g2 : Int) (t1 t2 : List Nat),
        SubstitutionScorer.validate (.Simple ms mms) t1 = .ok () ∧
        (∀ c, GlobalAligner.align ⟨⟨.Simple ms mms, g1, g2⟩⟩ t1 t2 ≠
          .error (.InvalidCharacter c)) ∧
        (∀ c, LocalAligner.align ⟨⟨.Simple ms mms, g1, g2⟩⟩ t1 t2 ≠
          .error (.InvalidCharacter c))) := by
  refine ⟨?_, ?_, ?_⟩
  · intro c h
    have hv : SubstitutionScorer.validate (.Matrix bm) s1 = .error (.InvalidCharacter c) :=
      validateMatrixSeq_eq_error bm s1 c h
    constructor
    · simp only [GlobalAligner.align, ensure_linear_of_eq, hv]
    · simp only [LocalAligner.align, ensure_linear_of_eq, hv]
  · intro c h1 h2
    have hv1 : SubstitutionScorer.validate (.Matrix bm) s1 = .ok () :=
      validateMatrixSeq_eq_ok bm s1 h1
    have hv2 : SubstitutionScorer.validate (.Matrix bm) s2 = .error (.InvalidCharacter c) :=
      validateMatrixSeq_eq_error bm s2 c h2
    constructor
    · simp only [GlobalAligner.align, ensure_linear_of_eq, hv1, hv2]
    · simp only [LocalAligner.align, ensure_linear_of_eq, hv1, hv2]
  · intro ms mms g1 g2 t1 t2
    refine ⟨rfl, ?_, ?_⟩
    · intro c
      by_cases haff : g1 = g2
      · subst haff
        obtain ⟨mat', hfill⟩ := fillRowsG_never_err ⟨.Simple ms mms, g1, g1⟩ t1 t2
          (simple_score_ok ms mms g1 g1) t1.length 1
          (GlobalAligner.init_matrix ⟨⟨.Simple ms mms, g1, g1⟩⟩ t1.length t2.length)
        simp only [GlobalAligner.align, ensure_linear_of_eq, SubstitutionScorer.validate,
          fill_matrix_linear, Bool.false_eq_true, if_false, hfill]
        intro hc
        exact Except.noConfusion hc
      · have := (claim_C6 (.Simple ms mms) g1 g2 t1 t2 haff).1
        rw [this]
        intro hc
        injection hc with hc2
        exact AlignmentError.noConfusion hc2
    · intro c
      by_cases haff : g1 = g2
      · subst haff
        obtain ⟨st', hfill⟩ := fillRowsL_never_err ⟨.Simple ms mms, g1, g1⟩ t1 t2
          (simple_score_ok ms mms g1 g1) t1.length 1
          ⟨LocalAligner.init_matrix ⟨⟨.Simple ms mms, g1, g1⟩⟩ t1.length t2.length, 0, []⟩
        simp only [LocalAligner.align, ensure_linear_of_eq, SubstitutionScorer.validate,
          fill_matrix_linear, if_true, hfill]
        intro hc
        exact Except.noConfusion hc
      · have := (claim_C6 (.Simple ms mms) g1 g2 t1 t2 haff).2
        rw [this]
        intro hc
        injection hc with hc2
        exact AlignmentError.noConfusion hc2

/-- Witness for C7: the PAM1 fragment matrix rejects byte 88 in either
sequence, and the simple scorer accepts everything. -/
theorem claim_C7_witness :
    ([88, 65].find? (fun x => ((pam1AW.lookup x).isNone : Bool)) = some 88 ∧
      GlobalAligner.align ⟨⟨.Matrix pam1AW, -2, -2⟩⟩ [88, 65] [65] =
        .error (.InvalidCharacter 88)) ∧
    ([65].find? (fun x => ((pam1AW.lookup x).isNone : Bool)) = none ∧
      [65, 88].find? (fun x => ((pam1AW.lookup x).isNone : Bool)) = some 88 ∧
      LocalAligner.align ⟨⟨.Matrix pam1AW, -2, -2⟩⟩ [65] [65, 88] =
        .error (.InvalidCharacter 88)) ∧
    (SubstitutionScorer.validate (.Simple 3 (-1)) [0, 45, 255] = .ok () ∧
      GlobalAligner.align ⟨⟨.Simple 3 (-1), -2, -2⟩⟩ [0, 45, 255] [1] ≠
        .error (.InvalidCharacter 0)) := by
  refine ⟨⟨by decide, ?_⟩, ⟨by decide, by decide, ?_⟩, ⟨?_, ?_⟩⟩
  · exact ((claim_C7 pam1AW (-2) [88, 65] [65]).1 88 (by decide)).1
  · exact ((claim_C7 pam1AW (-2) [65] [65, 88]).2.1 88 (by decide) (by decide)).2
  · exact ((claim_C7 pam1AW (-2) [] []).2.2 3 (-1) (-2) (-2) [0, 45, 255] [1]).1
  · exact ((claim_C7 pam1AW (-2) [] []).2.2 3 (-1) (-2) (-2) [0, 45, 255] [1]).2.1 0

/-! ## Local fill characterization -/

theorem fillCellL_ok (scoring : ScoringConfig) (seq1 seq2 : List Nat) (i j : Nat)
    (st st' : LocalFillState) (h : fillCellL scoring seq1 seq2 i j st = .ok st') :
    ∃ s, scoring.substitution_score (seq1.getD (i - 1) 0) (seq2.getD (j - 1) 0) = .ok s ∧
      st'.mat = st.mat.set i j (recurrenceCellL scoring.gap_open s
        (st.mat.get (i - 1) (j - 1)).score (st.mat.get (i - 1) j).score
        (st.mat.get i (j - 1)).score) ∧
      st'.maxScore = max st.maxScore (recurrenceCellL scoring.gap_open s
        (st.mat.get (i - 1) (j - 1)).score (st.mat.get (i - 1) j).score
        (st.mat.get i (j - 1)).score).score ∧
      (∀ p, p ∈ st'.maxPositions → p ∈ st.maxPositions ∨ p = (i, j)) := by
  cases hs : scoring.substitution_score (seq1.getD (i - 1) 0) (seq2.getD (j - 1) 0) with
  | error e => rw [fillCellL, hs] at h; exact Except.noConfusion h
  | ok s =>
    rw [fillCellL, hs] at h
    refine ⟨s, rfl, ?_⟩
    dsimp only at h
    split at h
    · next hlt =>
      injection h with h
      subst h
      refine ⟨rfl, (max_eq_right (le_of_lt hlt)).symm, ?_⟩
      intro p hp
      dsimp only at hp
      split at hp
      · right
        simpa using hp
      · simp at hp
    · split at h
      · next hne heq =>
        injection h with h
        subst h
        have heq2 := (Bool.and_eq_true _ _).mp heq
        have hcell : (recurrenceCellL scoring.gap_open s
            (st.mat.get (i - 1) (j - 1)).score (st.mat.get (i - 1) j).score
            (st.mat.get i (j - 1)).score).score = st.maxScore := beq_iff_eq.mp heq2.1
        refine ⟨rfl, ?_, ?_⟩
        · rw [hcell]
          exact (max_self _).symm
        · intro p hp
          dsimp only at hp
          rcases List.mem_append.mp hp with hl | hr
          · exact Or.inl hl
          · right
            simpa using hr
      · next hne hne2 =>
        injection h with h
        subst h
        refine ⟨rfl, (max_eq_left (not_lt.mp hne)).symm, ?_⟩
        intro p hp
        exact Or.inl hp

theorem fillRowL_ok (scoring : ScoringConfig) (seq1 seq2 : List Nat) (i : Nat) (hi : 0 < i) :
    ∀ cnt j st st', 0 < j →
      fillRowL scoring seq1 seq2 i j cnt st = .ok st' →
      ((∀ a b, (a ≠ i ∨ b < j ∨ j + cnt ≤ b) → st'.mat.get a b = st.mat.get a b)
        ∧ st'.mat.rows = st.mat.rows ∧ st'.mat.cols = st.mat.cols
        ∧ (∀ jj, j ≤ jj → jj < j + cnt →
            ∃ s, scoring.substitution_score (seq1.getD (i - 1) 0) (seq2.getD (jj - 1) 0) = .ok s ∧
              st'.mat.get i jj = recurrenceCellL scoring.gap_open s
                (st'.mat.get (i - 1) (jj - 1)).score (st'.mat.get (i - 1) jj).score
                (st'.mat.get i (jj - 1)).score)
        ∧ st.maxScore ≤ st'.maxScore
        ∧ (∀ jj, j ≤ jj → jj < j + cnt → (st'.mat.get i jj).score ≤ st'.maxScore)
        ∧ (st'.maxScore = st.maxScore ∨
            ∃ jj, j ≤ jj ∧ jj < j + cnt ∧ st'.maxScore = (st'.mat.get i jj).score)
        ∧ (∀ p, p ∈ st'.maxPositions →
            p ∈ st.maxPositions ∨ (p.1 = i ∧ j ≤ p.2 ∧ p.2 < j + cnt))) := by
  intro cnt
  induction cnt with
  | zero =>
    intro j st st' hj hok
    rw [fillRowL] at hok
    injection hok with h
    subst h
    exact ⟨fun a b _ => rfl, rfl, rfl, fun jj h1 h2 => by omega, le_refl _,
      fun jj h1 h2 => by omega, Or.inl rfl, fun p hp => Or.inl hp⟩
  | succ cnt ih =>
    intro j st st' hj hok
    rw [fillRowL] at hok
    cases hcell : fillCellL scoring seq1 seq2 i j st with
    | error e => rw [hcell] at hok; exact Except.noConfusion hok
    | ok st1 =>
      rw [hcell] at hok
      obtain ⟨s, hs, hmat1, hmax1, hpos1⟩ := fillCellL_ok scoring seq1 seq2 i j st st1 hcell
      obtain ⟨frame, hrows, hcols, spec, hmono, hproc, horig, hpos⟩ :=
        ih (j + 1) st1 st' (by omega) hok
      have hframe' : ∀ a b, (a ≠ i ∨ b < j ∨ j + (cnt + 1) ≤ b) →
          st'.mat.get a b = st.mat.get a b := by
        intro a b hcond
        rw [frame a b (by omega), hmat1, DPMatrix.get_set_ne st.mat i j _ a b (by omega)]
      have hcellval : st'.mat.get i j = recurrenceCellL scoring.gap_open s
          (st'.mat.get (i - 1) (j - 1)).score (st'.mat.get (i - 1) j).score
          (st'.mat.get i (j - 1)).score := by
        rw [frame i j (by omega), frame (i - 1) (j - 1) (by omega),
            frame (i - 1) j (by omega), frame i (j - 1) (by omega), hmat1,
            DPMatrix.get_set_self,
            DPMatrix.get_set_ne st.mat i j _ (i - 1) (j - 1) (by omega),
            DPMatrix.get_set_ne st.mat i j _ (i - 1) j (by omega),
            DPMatrix.get_set_ne st.mat i j _ i (j - 1) (by omega)]
      have hcellscore : (st'.mat.get i j).score = (recurrenceCellL scoring.gap_open s
          (st.mat.get (i - 1) (j - 1)).score (st.mat.get (i - 1) j).score
          (st.mat.get i (j - 1)).score).score := by
        rw [frame i j (by omega), hmat1, DPMatrix.get_set_self]
      refine ⟨hframe', hrows.trans (by rw [hmat1]; rfl), hcols.trans (by rw [hmat1]; rfl),
        ?_, ?_, ?_, ?_, ?_⟩
      · intro jj hjj1 hjj2
        by_cases hjje : jj = j
        · subst hjje
          exact ⟨s, hs, hcellval⟩
        · exact spec jj (by omega) (by omega)
      · calc st.maxScore ≤ st1.maxScore := by rw [hmax1]; exact le_max_left _ _
          _ ≤ st'.maxScore := hmono
      · intro jj hjj1 hjj2
        by_cases hjje : jj = j
        · subst hjje
          rw [hcellscore]
          calc (recurrenceCellL scoring.gap_open s (st.mat.get (i - 1) (jj - 1)).score
                (st.mat.get (i - 1) jj).score (st.mat.get i (jj - 1)).score).score
              ≤ st1.maxScore := by rw [hmax1]; exact le_max_right _ _
            _ ≤ st'.maxScore := hmono
        · exact hproc jj (by omega) (by omega)
      · rcases horig with h1 | ⟨jj, hj1, hj2, hj3⟩
        · rw [h1, hmax1]
          rcases max_choice st.maxScore (recurrenceCellL scoring.gap_open s
              (st.mat.get (i - 1) (j - 1)).score (st.mat.get (i - 1) j).score
              (st.mat.get i (j - 1)).score).score with hm | hm
          · exact Or.inl hm
          · right
            exact ⟨j, le_refl _, by omega, by rw [hm, hcellscore]⟩
        · right
          exact ⟨jj, by omega, by omega, hj3⟩
      · intro p hp
        rcases hpos p hp with h1 | h2
        · rcases hpos1 p h1 with h3 | h4
          · exact Or.inl h3
          · right
            rw [h4]
            exact ⟨rfl, le_refl _, by omega⟩
        · right
          exact ⟨h2.1, by omega, by omega⟩

theorem fillRowsL_ok (scoring : ScoringConfig) (seq1 seq2 : List Nat) :
    ∀ cnt i st st', 0 < i →
      fillRowsL scoring seq1 seq2 i cnt st = .ok st' →
      ((∀ a b, (a < i ∨ i + cnt ≤ a ∨ b = 0 ∨ seq2.length < b) →
          st'.mat.get a b = st.mat.get a b)
        ∧ st'.mat.rows = st.mat.rows ∧ st'.mat.cols = st.mat.cols
        ∧ (∀ ii jj, i ≤ ii → ii < i + cnt → 1 ≤ jj → jj ≤ seq2.length →
            ∃ s, scoring.substitution_score (seq1.getD (ii - 1) 0) (seq2.getD (jj - 1) 0) = .ok s ∧
              st'.mat.get ii jj = recurrenceCellL scoring.gap_open s
                (st'.mat.get (ii - 1) (jj - 1)).score (st'.mat.get (ii - 1) jj).score
                (st'.mat.get ii (jj - 1)).score)
        ∧ st.maxScore ≤ st'.maxScore
        ∧ (∀ ii jj, i ≤ ii → ii < i + cnt → 1 ≤ jj → jj ≤ seq2.length →
            (st'.mat.get ii jj).score ≤ st'.maxScore)
        ∧ (st'.maxScore = st.maxScore ∨
            ∃ ii jj, i ≤ ii ∧ ii < i + cnt ∧ 1 ≤ jj ∧ jj ≤ seq2.length ∧
              st'.maxScore = (st'.mat.get ii jj).score)
        ∧ (∀ p, p ∈ st'.maxPositions →
            p ∈ st.maxPositions ∨
              (i ≤ p.1 ∧ p.1 < i + cnt ∧ 1 ≤ p.2 ∧ p.2 ≤ seq2.length))) := by
  intro cnt
  induction cnt with
  | zero =>
    intro i st st' hi hok
    rw [fillRowsL] at hok
    injection hok with h
    subst h
    exact ⟨fun a b _ => rfl, rfl, rfl, fun ii jj h1 h2 _ _ => by omega, le_refl _,
      fun ii jj h1 h2 _ _ => by omega, Or.inl rfl, fun p hp => Or.inl hp⟩
  | succ cnt ih =>
    intro i st st' hi hok
    rw [fillRowsL] at hok
    cases hrow : fillRowL scoring seq1 seq2 i 1 seq2.length st with
    | error e => rw [hrow] at hok; exact Except.noConfusion hok
    | ok st1 =>
      rw [hrow] at hok
      obtain ⟨frameR, hrowsR, hcolsR, specR, hmonoR, hprocR, horigR, hposR⟩ :=
        fillRowL_ok scoring seq1 seq2 i hi seq2.length 1 st st1 (by omega) hrow
      obtain ⟨frame, hrows, hcols, spec, hmono, hproc, horig, hpos⟩ :=
        ih (i + 1) st1 st' (by omega) hok
      have hframe' : ∀ a b, (a < i ∨ i + (cnt + 1) ≤ a ∨ b = 0 ∨ seq2.length < b) →
          st'.mat.get a b = st.mat.get a b := by
        intro a b hcond
        rw [frame a b (by omega), frameR a b (by omega)]
      have hrowpreserved : ∀ jj, 1 ≤ jj → jj ≤ seq2.length →
          st'.mat.get i jj = st1.mat.get i jj := by
        intro jj h1 h2
        exact frame i jj (by omega)
      refine ⟨hframe', hrows.trans hrowsR, hcols.trans hcolsR, ?_, le_trans hmonoR hmono,
        ?_, ?_, ?_⟩
      · intro ii jj h1 h2 h3 h4
        by_cases hiie : ii = i
        · subst hiie
          obtain ⟨s, hs, hcell⟩ := specR jj (by omega) (by omega)
          refine ⟨s, hs, ?_⟩
          rw [frame ii jj (by omega), frame (ii - 1) (jj - 1) (by omega),
              frame (ii - 1) jj (by omega), frame ii (jj - 1) (by omega)]
          exact hcell
        · exact spec ii jj (by omega) (by omega) h3 h4
      · intro ii jj h1 h2 h3 h4
        by_cases hiie : ii = i
        · subst hiie
          rw [hrowpreserved jj h3 h4]
          exact le_trans (hprocR jj (by omega) (by omega)) hmono
        · exact hproc ii jj (by omega) (by omega) h3 h4
      · rcases horig with h1 | ⟨ii, jj, hc1, hc2, hc3, hc4, hc5⟩
        · rcases horigR with h2 | ⟨jj, hd1, hd2, hd3⟩
          · exact Or.inl (h1.trans h2)
          · right
            refine ⟨i, jj, le_refl _, by omega, by omega, by omega, ?_⟩
            rw [h1, hd3, hrowpreserved jj (by omega) (by omega)]
        · right
          exact ⟨ii, jj, by omega, by omega, hc3, hc4, hc5⟩
      · intro p hp
        rcases hpos p hp with h1 | h2
        · rcases hposR p h1 with h3 | h4
          · exact Or.inl h3
          · right
            exact ⟨by omega, by omega, by omega, by omega⟩
        · right
          exact ⟨by omega, by omega, h2.2.2.1, h2.2.2.2⟩

/-! ## Claim C4: local matrix invariants -/

/-- C4: in local mode every cell of the completed matrix has score ≥ 0,
every cell of row 0 and column 0 has score exactly 0, and every cell with
score 0 has an empty arrow bitmask. -/
theorem claim_C4 (cfg : ScoringConfig) (s1 s2 : List Nat)
    (hOk : isOkE (LocalAligner.align ⟨cfg⟩ s1 s2) = true) :
    ∀ i j, i ≤ s1.length → j ≤ s2.length →
      (0 ≤ ((matrixOf (LocalAligner.align ⟨cfg⟩ s1 s2)).get i j).score
       ∧ ((i = 0 ∨ j = 0) →
           ((matrixOf (LocalAligner.align ⟨cfg⟩ s1 s2)).get i j).score = 0)
       ∧ (((matrixOf (LocalAligner.align ⟨cfg⟩ s1 s2)).get i j).score = 0 →
           ((matrixOf (LocalAligner.align ⟨cfg⟩ s1 s2)).get i j).arrows.bits = 0)) := by
  obtain ⟨st, hfill, halign⟩ := localAlign_ok_decomp cfg s1 s2 hOk
  have hmo : matrixOf (LocalAligner.align ⟨cfg⟩ s1 s2) = st.mat := by rw [halign]; rfl
  simp only [hmo]
  intro i j hi hj
  obtain ⟨frame, hrows, hcols, spec, _, _, _, _⟩ :=
    fillRowsL_ok cfg s1 s2 s1.length 1 _ st (by omega) hfill
  by_cases hborder : i = 0 ∨ j = 0
  · have hcell : st.mat.get i j = Cell.new 0 := by
      rw [frame i j (by omega)]
      exact localInit_get_zero ⟨cfg⟩ s1.length s2.length i j (by omega)
    rw [hcell]
    exact ⟨le_refl 0, fun _ => rfl, fun _ => rfl⟩
  · obtain ⟨s, hs, hcell⟩ := spec i j (by omega) (by omega) (by omega) hj
    refine ⟨?_, fun h0 => absurd h0 hborder, ?_⟩
    · rw [hcell, recurrenceCellL_score]
      exact le_max_right _ _
    · intro h0
      rw [hcell, recurrenceCellL_arrows, if_neg]
      · rfl
      · rw [hcell, recurrenceCellL_score] at h0
        omega

/-- Witness for C4: default config, sequences "AC" vs "T". -/
theorem claim_C4_witness :
    (isOkE (LocalAligner.align ⟨dcfg⟩ [65, 67] [84]) = true) ∧
    (∀ i j, i ≤ [65, 67].length → j ≤ [84].length →
      (0 ≤ ((matrixOf (LocalAligner.align ⟨dcfg⟩ [65, 67] [84])).get i j).score
       ∧ ((i = 0 ∨ j = 0) →
           ((matrixOf (LocalAligner.align ⟨dcfg⟩ [65, 67] [84])).get i j).score = 0)
       ∧ (((matrixOf (LocalAligner.align ⟨dcfg⟩ [65, 67] [84])).get i j).score = 0 →
           ((matrixOf (LocalAligner.align ⟨dcfg⟩ [65, 67] [84])).get i j).arrows.bits = 0))) :=
  ⟨by decide, claim_C4 dcfg [65, 67] [84] (by decide)⟩

/-! ## Claim C3: the final score -/

theorem foldl_max_ge_init (f : Nat → Int) :
    ∀ (l : List Nat) (a : Int), a ≤ l.foldl (fun acc x => max acc (f x)) a := by
  intro l
  induction l with
  | nil => intro a; exact le_refl a
  | cons x xs ih =>
    intro a
    exact le_trans (le_max_left a (f x)) (ih (max a (f x)))

theorem foldl_max_ge_mem (f : Nat → Int) :
    ∀ (l : List Nat) (a : Int) (x : Nat), x ∈ l →
      f x ≤ l.foldl (fun acc y => max acc (f y)) a := by
  intro l
  induction l with
  | nil => intro a x hx; simp at hx
  | cons y ys ih =>
    intro a x hx
    rcases List.mem_cons.mp hx with rfl | hx2
    · exact le_trans (le_max_right a (f x)) (foldl_max_ge_init f ys _)
    · exact ih _ x hx2

theorem foldl_max_le_bound (f : Nat → Int) (b : Int) :
    ∀ (l : List Nat) (a : Int), a ≤ b → (∀ x ∈ l, f x ≤ b) →
      l.foldl (fun acc x => max acc (f x)) a ≤ b := by
  intro l
  induction l with
  | nil => intro a ha _; exact ha
  | cons x xs ih =>
    intro a ha hall
    exact ih _ (max_le ha (hall x (List.mem_cons_self x xs)))
      (fun y hy => hall y (List.mem_cons_of_mem x hy))

theorem matrixMaxScore_ge_cell (mat : DPMatrix) (i j : Nat)
    (hi : i < mat.rows) (hj : j < mat.cols) :
    (mat.get i j).score ≤ matrixMaxScore mat := by
  have hc : 0 < mat.cols := by omega
  have hk : i * mat.cols + j < mat.rows * mat.cols := by
    calc i * mat.cols + j < i * mat.cols + mat.cols := by omega
      _ = (i + 1) * mat.cols := by ring
      _ ≤ mat.rows * mat.cols := Nat.mul_le_mul_right _ (by omega)
  have hre : i * mat.cols + j = j + mat.cols * i := by ring
  have hdiv : (i * mat.cols + j) / mat.cols = i := by
    rw [hre, Nat.add_mul_div_left _ _ hc, Nat.div_eq_of_lt hj, Nat.zero_add]
  have hmod : (i * mat.cols + j) % mat.cols = j := by
    rw [hre, Nat.add_mul_mod_self_left, Nat.mod_eq_of_lt hj]
  have hmem := foldl_max_ge_mem
    (fun k => (mat.get (k / mat.cols) (k % mat.cols)).score)
    (List.range (mat.rows * mat.cols)) ((mat.get 0 0).score)
    (i * mat.cols + j) (List.mem_range.mpr hk)
  have hmem2 : (mat.get ((i * mat.cols + j) / mat.cols)
      ((i * mat.cols + j) % mat.cols)).score ≤ matrixMaxScore mat := hmem
  rw [hdiv, hmod] at hmem2
  exact hmem2

theorem matrixMaxScore_le_bound (mat : DPMatrix) (b : Int)
    (h0 : (mat.get 0 0).score ≤ b)
    (hall : ∀ i j, i < mat.rows → j < mat.cols → (mat.get i j).score ≤ b) :
    matrixMaxScore mat ≤ b := by
  apply foldl_max_le_bound _ b _ _ h0
  intro k hk
  have hk2 := List.mem_range.mp hk
  have hc : 0 < mat.cols := by
    rcases Nat.eq_zero_or_pos mat.cols with h | h
    · rw [h, Nat.mul_zero] at hk2; omega
    · exact h
  exact hall _ _ ((Nat.div_lt_iff_lt_mul hc).mpr hk2) (Nat.mod_lt _ hc)

/-- C3: `final_score` equals the score of cell `(n, m)` in global mode; in
local mode it equals the matrix-wide maximum score when that maximum is
positive and 0 otherwise, and whenever the matrix-wide maximum is ≤ 0 the
returned alignments and traceback paths are both empty. -/
theorem claim_C3 (cfg : ScoringConfig) (s1 s2 : List Nat) :
    (isOkE (GlobalAligner.align ⟨cfg⟩ s1 s2) = true →
      finalScoreOf (GlobalAligner.align ⟨cfg⟩ s1 s2) =
        ((matrixOf (GlobalAligner.align ⟨cfg⟩ s1 s2)).get s1.length s2.length).score)
    ∧ (isOkE (LocalAligner.align ⟨cfg⟩ s1 s2) = true →
        (finalScoreOf (LocalAligner.align ⟨cfg⟩ s1 s2) =
          if 0 < matrixMaxScore (matrixOf (LocalAligner.align ⟨cfg⟩ s1 s2)) then
            matrixMaxScore (matrixOf (LocalAligner.align ⟨cfg⟩ s1 s2))
          else 0)
        ∧ (matrixMaxScore (matrixOf (LocalAligner.align ⟨cfg⟩ s1 s2)) ≤ 0 →
            alignmentsOf (LocalAligner.align ⟨cfg⟩ s1 s2) = [] ∧
            pathsOf (LocalAligner.align ⟨cfg⟩ s1 s2) = [])) := by
  constructor
  · intro hOk
    obtain ⟨mat, hfill, halign⟩ := globalAlign_ok_decomp cfg s1 s2 hOk
    rw [halign]
    rfl
  · intro hOk
    obtain ⟨st, hfill, halign⟩ := localAlign_ok_decomp cfg s1 s2 hOk
    have hmo : matrixOf (LocalAligner.align ⟨cfg⟩ s1 s2) = st.mat := by rw [halign]; rfl
    have hfs : finalScoreOf (LocalAligner.align ⟨cfg⟩ s1 s2) = st.maxScore := by
      rw [halign]
      rfl
    obtain ⟨frame, hrows, hcols, spec, hmono, hproc, horig, hpos⟩ :=
      fillRowsL_ok cfg s1 s2 s1.length 1 _ st (by omega) hfill
    have hrows2 : st.mat.rows = s1.length + 1 := by
      rw [hrows]
      exact (localInit_dims ⟨cfg⟩ s1.length s2.length).1
    have hcols2 : st.mat.cols = s2.length + 1 := by
      rw [hcols]
      exact (localInit_dims ⟨cfg⟩ s1.length s2.length).2
    have hms0 : (0 : Int) ≤ st.maxScore := hmono
    have hborder : ∀ i j, i ≤ s1.length → j ≤ s2.length → (i = 0 ∨ j = 0) →
        st.mat.get i j = Cell.new 0 := by
      intro i j hi hj hb
      rw [frame i j (by omega)]
      exact localInit_get_zero ⟨cfg⟩ s1.length s2.length i j (by omega)
    have hMM : matrixMaxScore st.mat = st.maxScore := by
      apply le_antisymm
      · apply matrixMaxScore_le_bound
        · rw [hborder 0 0 (by omega) (by omega) (Or.inl rfl)]
          exact hms0
        · intro i j hi hj
          rw [hrows2] at hi
          rw [hcols2] at hj
          by_cases hb : i = 0 ∨ j = 0
          · rw [hborder i j (by omega) (by omega) hb]
            exact hms0
          · exact hproc i j (by omega) (by omega) (by omega) (by omega)
      · rcases horig with h1 | ⟨ii, jj, hc1, hc2, hc3, hc4, hc5⟩
        · have h2 : st.maxScore = (st.mat.get 0 0).score := by
            rw [h1, hborder 0 0 (by omega) (by omega) (Or.inl rfl)]
            rfl
          rw [h2]
          unfold matrixMaxScore
          exact foldl_max_ge_init _ _ _
        · rw [hc5]
          exact matrixMaxScore_ge_cell st.mat ii jj (by omega) (by omega)
    rw [hmo, hMM, hfs]
    constructor
    · by_cases hpos2 : 0 < st.maxScore
      · rw [if_pos hpos2]
      · rw [if_neg hpos2]
        omega
    · intro hle
      have hneg : ¬(0 < st.maxScore) := by omega
      constructor
      · rw [halign]
        show (if 0 < st.maxScore then _ else (([], []) : List TracebackPath × List AlignedPair)).2 = []
        rw [if_neg hneg]
      · rw [halign]
        show (if 0 < st.maxScore then _ else (([], []) : List TracebackPath × List AlignedPair)).1 = []
        rw [if_neg hneg]

/-- Witness for C3: default config, sequences "A" vs "T". -/
theorem claim_C3_witness :
    (isOkE (GlobalAligner.align ⟨dcfg⟩ [65] [84]) = true) ∧
    (isOkE (LocalAligner.align ⟨dcfg⟩ [65] [84]) = true) ∧
    (finalScoreOf (GlobalAligner.align ⟨dcfg⟩ [65] [84]) =
      ((matrixOf (GlobalAligner.align ⟨dcfg⟩ [65] [84])).get 1 1).score) ∧
    ((finalScoreOf (LocalAligner.align ⟨dcfg⟩ [65] [84]) =
        if 0 < matrixMaxScore (matrixOf (LocalAligner.align ⟨dcfg⟩ [65] [84])) then
          matrixMaxScore (matrixOf (LocalAligner.align ⟨dcfg⟩ [65] [84]))
        else 0)
      ∧ (matrixMaxScore (matrixOf (LocalAligner.align ⟨dcfg⟩ [65] [84])) ≤ 0 →
          alignmentsOf (LocalAligner.align ⟨dcfg⟩ [65] [84]) = [] ∧
          pathsOf (LocalAligner.align ⟨dcfg⟩ [65] [84]) = [])) :=
  ⟨by decide, by decide, (claim_C3 dcfg [65] [84]).1 (by decide),
    (claim_C3 dcfg [65] [84]).2 (by decide)⟩

/-! ## Traceback: helper lemmas -/

theorem removeGaps_append (l1 l2 : List Nat) :
    removeGaps (l1 ++ l2) = removeGaps l1 ++ removeGaps l2 := List.filter_append l1 l2

theorem removeGaps_reverse (l : List Nat) :
    removeGaps l.reverse = (removeGaps l).reverse := List.filter_reverse _ l

theorem removeGaps_singleton_keep (c : Nat) (h : (c != 45) = true) :
    removeGaps [c] = [c] := by
  unfold removeGaps
  rw [List.filter_cons, if_pos h]
  rfl

theorem removeGaps_snoc_gap (aln : List Nat) :
    removeGaps (aln ++ [45]) = removeGaps aln := by
  rw [removeGaps_append]
  simp [removeGaps]

/-- Appending the residue `seq[k]` extends the slice invariant of the
traceback buffers by one position. -/
theorem removeGaps_snoc_residue (seq aln : List Nat) (st k : Nat)
    (hg : 45 ∉ seq) (hk : k < st) (hst : st ≤ seq.length)
    (ha : removeGaps aln = ((seq.drop (k + 1)).take (st - (k + 1))).reverse) :
    removeGaps (aln ++ [seq.getD k 0]) = ((seq.drop k).take (st - k)).reverse := by
  have hklen : k < seq.length := by omega
  have hmem : seq.getD k 0 ∈ seq := by
    rw [List.getD_eq_getElem seq 0 hklen]
    exact List.getElem_mem hklen
  have hne : (seq.getD k 0 != 45) = true := by
    rw [bne_iff_ne]
    intro hc
    rw [hc] at hmem
    exact hg hmem
  have h1 : removeGaps [seq.getD k 0] = [seq.getD k 0] :=
    removeGaps_singleton_keep _ hne
  rw [removeGaps_append, h1, ha]
  have hdrop : seq.drop k = seq.getD k 0 :: seq.drop (k + 1) := by
    rw [List.getD_eq_getElem seq 0 hklen]
    exact List.drop_eq_getElem_cons hklen
  rw [hdrop]
  have hsub : st - k = (st - (k + 1)) + 1 := by omega
  rw [hsub, List.take_succ_cons, List.reverse_cons]

theorem head?_append_right (l l2 : List TracebackStep) (y : TracebackStep)
    (h : l.head? = some y) : (l ++ l2).head? = some y := by
  cases l with
  | nil => exact Option.noConfusion h
  | cons a t => simpa using h

theorem chain'_snoc_snoc (l : List TracebackStep) (a b : TracebackStep)
    (hc : List.Chain' StepAdj (l ++ [a])) (hab : StepAdj a b) :
    List.Chain' StepAdj ((l ++ [a]) ++ [b]) := by
  rw [List.chain'_append]
  refine ⟨hc, List.chain'_singleton b, ?_⟩
  intro x hx y hy
  rw [List.getLast?_concat, Option.mem_def] at hx
  rw [List.head?_cons, Option.mem_def] at hy
  injection hx with hx
  injection hy with hy
  subst hx
  subst hy
  exact hab

theorem zip_concat_prop {α β : Type} (P : α → β → Prop) (P1 P2 : List α) (A1 A2 : List β)
    (hl1 : P1.length = A1.length)
    (h1 : ∀ a b, (a, b) ∈ P1.zip A1 → P a b)
    (h2 : ∀ a b, (a, b) ∈ P2.zip A2 → P a b) :
    ∀ a b, (a, b) ∈ (P1 ++ P2).zip (A1 ++ A2) → P a b := by
  intro a b hab
  rw [List.zip_append hl1] at hab
  rcases List.mem_append.mp hab with h | h
  · exact h1 a b h
  · exact h2 a b h

/-- The property of every (path, aligned pair) emitted by the traceback when
entered at `(i, j)` towards start `(st1, st2)`: the path starts at the start
coordinate, is a chain of unit down/right-decrements, has one more step than
the aligned strings have characters, the aligned strings have equal length,
and the path ends at a stop cell `(i', j')` below `(i, j)` whose aligned
strings degap to the slices `seq1[i'..st1)` / `seq2[j'..st2)`. -/
def TbProp (mat : DPMatrix) (seq1 seq2 : List Nat)
    (stopCond : Nat → Nat → Cell → Bool) (sna : Bool)
    (st1 st2 i j : Nat) (pp : TracebackPath) (aa : AlignedPair) : Prop :=
  pp.steps.head? = some ⟨st1, st2⟩ ∧
  List.Chain' StepAdj pp.steps ∧
  pp.steps.length = aa.seq1_aligned.length + 1 ∧
  aa.seq1_aligned.length = aa.seq2_aligned.length ∧
  ∃ i' j', i' ≤ i ∧ j' ≤ j ∧
    pp.steps.getLast? = some ⟨i', j'⟩ ∧
    (stopCond i' j' (mat.get i' j') = true ∨
      (sna = true ∧ (mat.get i' j').arrows.bits = 0)) ∧
    (45 ∉ seq1 → removeGaps aa.seq1_aligned = (seq1.drop i').take (st1 - i')) ∧
    (45 ∉ seq2 → removeGaps aa.seq2_aligned = (seq2.drop j').take (st2 - j'))

theorem TbProp.mono (mat : DPMatrix) (seq1 seq2 : List Nat)
    (stopCond : Nat → Nat → Cell → Bool) (sna : Bool)
    (st1 st2 i j i2 j2 : Nat) (pp : TracebackPath) (aa : AlignedPair)
    (h : TbProp mat seq1 seq2 stopCond sna st1 st2 i j pp aa)
    (hii : i ≤ i2) (hjj : j ≤ j2) :
    TbProp mat seq1 seq2 stopCond sna st1 st2 i2 j2 pp aa := by
  obtain ⟨h1, h2, h3, h4, i', j', h5, h6, h7, h8⟩ := h
  exact ⟨h1, h2, h3, h4, i', j', by omega, by omega, h7, h8⟩

theorem stepAdj_diag (i j : Nat) (hi : 0 < i) (hj : 0 < j) :
    StepAdj ⟨i, j⟩ ⟨i - 1, j - 1⟩ := by
  unfold StepAdj
  dsimp only
  omega

theorem stepAdj_up (i j : Nat) (hi : 0 < i) : StepAdj ⟨i, j⟩ ⟨i - 1, j⟩ := by
  unfold StepAdj
  dsimp only
  omega

theorem stepAdj_left (i j : Nat) (hj : 0 < j) : StepAdj ⟨i, j⟩ ⟨i, j - 1⟩ := by
  unfold StepAdj
  dsimp only
  omega

/-- Master invariant of `traceback_recursive`: entered at `(i, j)` with
buffers satisfying the slice invariants, it appends to the accumulators a
list of (path, alignment) pairs, emitted in lockstep, each satisfying
`TbProp`. -/
theorem traceback_master (mat : DPMatrix) (seq1 seq2 : List Nat)
    (stopCond : Nat → Nat → Cell → Bool) (sna : Bool) (st1 st2 : Nat)
    (hst1n : st1 ≤ seq1.length) (hst2n : st2 ≤ seq2.length) :
    ∀ (fuel i j : Nat) (path : TracebackPath) (aln1 aln2 : List Nat)
      (acc : List TracebackPath × List AlignedPair),
      i + j < fuel → i ≤ st1 → j ≤ st2 →
      (45 ∉ seq1 → removeGaps aln1 = ((seq1.drop i).take (st1 - i)).reverse) →
      (45 ∉ seq2 → removeGaps aln2 = ((seq2.drop j).take (st2 - j)).reverse) →
      aln1.length = aln2.length →
      path.steps.length = aln1.length →
      List.Chain' StepAdj (path.steps ++ [⟨i, j⟩]) →
      (path.steps ++ [(⟨i, j⟩ : TracebackStep)]).head? = some (⟨st1, st2⟩ : TracebackStep) →
      ∃ newP newA,
        tracebackRecursive mat seq1 seq2 stopCond sna fuel i j path aln1 aln2 acc =
          (acc.1 ++ newP, acc.2 ++ newA) ∧
        newP.length = newA.length ∧
        (∀ pp aa, (pp, aa) ∈ newP.zip newA →
          TbProp mat seq1 seq2 stopCond sna st1 st2 i j pp aa) := by
  intro fuel
  induction fuel with
  | zero => intro i j path aln1 aln2 acc hfuel; omega
  | succ fuel ih =>
    intro i j path aln1 aln2 acc hfuel hi hj ha1 ha2 hlen hplen hchain hhead
    simp only [tracebackRecursive]
    by_cases hstop : (stopCond i j (mat.get i j) ||
        (sna && (mat.get i j).arrows.bits == 0)) = true
    · rw [if_pos hstop]
      refine ⟨[path.push i j], [⟨aln1.reverse, aln2.reverse⟩], rfl, rfl, ?_⟩
      intro pp aa hmem
      simp only [List.zip_cons_cons, List.zip_nil_right, List.mem_singleton] at hmem
      injection hmem with hpp haa
      subst hpp
      subst haa
      refine ⟨hhead, hchain, ?_, ?_, i, j, le_refl i, le_refl j,
        List.getLast?_concat _, ?_, ?_, ?_⟩
      · show (path.steps ++ [(⟨i, j⟩ : TracebackStep)]).length = aln1.reverse.length + 1
        rw [List.length_append, List.length_reverse, hplen]
        rfl
      · show aln1.reverse.length = aln2.reverse.length
        rw [List.length_reverse, List.length_reverse, hlen]
      · rcases Bool.or_eq_true_iff.mp hstop with h | h
        · exact Or.inl h
        · right
          obtain ⟨hsna, hbits⟩ := Bool.and_eq_true_iff.mp h
          exact ⟨hsna, beq_iff_eq.mp hbits⟩
      · intro hg
        show removeGaps aln1.reverse = _
        rw [removeGaps_reverse, ha1 hg, List.reverse_reverse]
      · intro hg
        show removeGaps aln2.reverse = _
        rw [removeGaps_reverse, ha2 hg, List.reverse_reverse]
    · rw [if_neg hstop]
      have hplen' : (path.push i j).steps.length = aln1.length + 1 := by
        show (path.steps ++ [(⟨i, j⟩ : TracebackStep)]).length = aln1.length + 1
        rw [List.length_append, hplen]
        rfl
      obtain ⟨P1, A1, hE1, hL1, hP1⟩ :
          ∃ P1 A1,
            (if (mat.get i j).arrows.hasDiagonal && decide (0 < i) && decide (0 < j) then
              tracebackRecursive mat seq1 seq2 stopCond sna fuel (i - 1) (j - 1)
                (path.push i j) (aln1 ++ [seq1.getD (i - 1) 0])
                (aln2 ++ [seq2.getD (j - 1) 0]) acc
            else acc) = (acc.1 ++ P1, acc.2 ++ A1) ∧ P1.length = A1.length ∧
            ∀ pp aa, (pp, aa) ∈ P1.zip A1 →
              TbProp mat seq1 seq2 stopCond sna st1 st2 i j pp aa := by
        by_cases hd : ((mat.get i j).arrows.hasDiagonal && decide (0 < i) &&
            decide (0 < j)) = true
        · rw [if_pos hd]
          have hi0 : 0 < i :=
            of_decide_eq_true ((Bool.and_eq_true_iff.mp
              ((Bool.and_eq_true_iff.mp hd).1)).2)
          have hj0 : 0 < j := of_decide_eq_true ((Bool.and_eq_true_iff.mp hd).2)
          obtain ⟨P1, A1, e, l, p⟩ := ih (i - 1) (j - 1) (path.push i j)
            (aln1 ++ [seq1.getD (i - 1) 0]) (aln2 ++ [seq2.getD (j - 1) 0]) acc
            (by omega) (by omega) (by omega)
            (fun hg => by
              have := removeGaps_snoc_residue seq1 aln1 st1 (i - 1) hg (by omega) hst1n
                (by rw [show i - 1 + 1 = i by omega]; exact ha1 hg)
              exact this)
            (fun hg => by
              have := removeGaps_snoc_residue seq2 aln2 st2 (j - 1) hg (by omega) hst2n
                (by rw [show j - 1 + 1 = j by omega]; exact ha2 hg)
              exact this)
            (by simp [hlen])
            (by simpa using hplen')
            (chain'_snoc_snoc path.steps ⟨i, j⟩ ⟨i - 1, j - 1⟩ hchain
              (stepAdj_diag i j hi0 hj0))
            (head?_append_right _ _ _ hhead)
          exact ⟨P1, A1, e, l, fun pp aa hm =>
            TbProp.mono mat seq1 seq2 stopCond sna st1 st2 (i - 1) (j - 1) i j pp aa
              (p pp aa hm) (by omega) (by omega)⟩
        · rw [if_neg hd]
          exact ⟨[], [], by simp, rfl, by simp⟩
      rw [hE1]
      obtain ⟨P2, A2, hE2, hL2, hP2⟩ :
          ∃ P2 A2,
            (if (mat.get i j).arrows.hasUp && decide (0 < i) then
              tracebackRecursive mat seq1 seq2 stopCond sna fuel (i - 1) j
                (path.push i j) (aln1 ++ [seq1.getD (i - 1) 0])
                (aln2 ++ [45]) (acc.1 ++ P1, acc.2 ++ A1)
            else (acc.1 ++ P1, acc.2 ++ A1)) =
              (acc.1 ++ (P1 ++ P2), acc.2 ++ (A1 ++ A2)) ∧ P2.length = A2.length ∧
            ∀ pp aa, (pp, aa) ∈ P2.zip A2 →
              TbProp mat seq1 seq2 stopCond sna st1 st2 i j pp aa := by
        by_cases hu : ((mat.get i j).arrows.hasUp && decide (0 < i)) = true
        · rw [if_pos hu]
          have hi0 : 0 < i := of_decide_eq_true ((Bool.and_eq_true_iff.mp hu).2)
          obtain ⟨P2, A2, e, l, p⟩ := ih (i - 1) j (path.push i j)
            (aln1 ++ [seq1.getD (i - 1) 0]) (aln2 ++ [45]) (acc.1 ++ P1, acc.2 ++ A1)
            (by omega) (by omega) (by omega)
            (fun hg => by
              have := removeGaps_snoc_residue seq1 aln1 st1 (i - 1) hg (by omega) hst1n
                (by rw [show i - 1 + 1 = i by omega]; exact ha1 hg)
              exact this)
            (fun hg => by rw [removeGaps_snoc_gap]; exact ha2 hg)
            (by simp [hlen])
            (by simpa using hplen')
            (chain'_snoc_snoc path.steps ⟨i, j⟩ ⟨i - 1, j⟩ hchain
              (stepAdj_up i j hi0))
            (head?_append_right _ _ _ hhead)
          refine ⟨P2, A2, ?_, l, fun pp aa hm =>
            TbProp.mono mat seq1 seq2 stopCond sna st1 st2 (i - 1) j i j pp aa
              (p pp aa hm) (by omega) (by omega)⟩
          rw [e]
          simp [List.append_assoc]
        · rw [if_neg hu]
          exact ⟨[], [], by simp, rfl, by simp⟩
      rw [hE2]
      obtain ⟨P3, A3, hE3, hL3, hP3⟩ :
          ∃ P3 A3,
            (if (mat.get i j).arrows.hasLeft && decide (0 < j) then
              tracebackRecursive mat seq1 seq2 stopCond sna fuel i (j - 1)
                (path.push i j) (aln1 ++ [45])
                (aln2 ++ [seq2.getD (j - 1) 0]) (acc.1 ++ (P1 ++ P2), acc.2 ++ (A1 ++ A2))
            else (acc.1 ++ (P1 ++ P2), acc.2 ++ (A1 ++ A2))) =
              (acc.1 ++ (P1 ++ P2 ++ P3), acc.2 ++ (A1 ++ A2 ++ A3)) ∧
            P3.length = A3.length ∧
            ∀ pp aa, (pp, aa) ∈ P3.zip A3 →
              TbProp mat seq1 seq2 stopCond sna st1 st2 i j pp aa := by
        by_cases hl : ((mat.get i j).arrows.hasLeft && decide (0 < j)) = true
        · rw [if_pos hl]
          have hj0 : 0 < j := of_decide_eq_true ((Bool.and_eq_true_iff.mp hl).2)
          obtain ⟨P3, A3, e, l, p⟩ := ih i (j - 1) (path.push i j)
            (aln1 ++ [45]) (aln2 ++ [seq2.getD (j - 1) 0])
            (acc.1 ++ (P1 ++ P2), acc.2 ++ (A1 ++ A2))
            (by omega) (by omega) (by omega)
            (fun hg => by rw [removeGaps_snoc_gap]; exact ha1 hg)
            (fun hg => by
              have := removeGaps_snoc_residue seq2 aln2 st2 (j - 1) hg (by omega) hst2n
                (by rw [show j - 1 + 1 = j by omega]; exact ha2 hg)
              exact this)
            (by simp [hlen])
            (by simpa using hplen')
            (chain'_snoc_snoc path.steps ⟨i, j⟩ ⟨i, j - 1⟩ hchain
              (stepAdj_left i j hj0))
            (head?_append_right _ _ _ hhead)
          refine ⟨P3, A3, ?_, l, fun pp aa hm =>
            TbProp.mono mat seq1 seq2 stopCond sna st1 st2 i (j - 1) i j pp aa
              (p pp aa hm) (by omega) (by omega)⟩
          rw [e]
          simp [List.append_assoc]
        · rw [if_neg hl]
          refine ⟨[], [], by simp, rfl, by simp⟩
      rw [hE3]
      refine ⟨P1 ++ P2 ++ P3, A1 ++ A2 ++ A3, rfl, ?_, ?_⟩
      · rw [List.length_append, List.length_append, List.length_append,
          List.length_append, hL1, hL2, hL3]
      · exact zip_concat_prop _ (P1 ++ P2) P3 (A1 ++ A2) A3
          (by rw [List.length_append, List.length_append, hL1, hL2])
          (zip_concat_prop _ P1 P2 A1 A2 hL1 hP1 hP2) hP3

/-- Folding the traceback over a list of start positions appends, for each
start, a block of (path, alignment) pairs satisfying `TbProp` at that
start. -/
theorem traceback_fold_prop (mat : DPMatrix) (seq1 seq2 : List Nat)
    (stopCond : Nat → Nat → Cell → Bool) (sna : Bool) :
    ∀ (starts : List (Nat × Nat)) (acc : List TracebackPath × List AlignedPair),
      (∀ p ∈ starts, p.1 ≤ seq1.length ∧ p.2 ≤ seq2.length) →
      ∃ newP newA,
        starts.foldl (fun acc sp => tracebackRecursive mat seq1 seq2 stopCond sna
          (sp.1 + sp.2 + 1) sp.1 sp.2 ⟨[]⟩ [] [] acc) acc =
          (acc.1 ++ newP, acc.2 ++ newA) ∧
        newP.length = newA.length ∧
        ∀ pp aa, (pp, aa) ∈ newP.zip newA →
          ∃ st1 st2, (st1, st2) ∈ starts ∧
            TbProp mat seq1 seq2 stopCond sna st1 st2 st1 st2 pp aa := by
  intro starts
  induction starts with
  | nil =>
    intro acc _
    exact ⟨[], [], by simp, rfl, by simp⟩
  | cons sp rest ih =>
    intro acc hb
    obtain ⟨P1, A1, e1, l1, p1⟩ := traceback_master mat seq1 seq2 stopCond sna sp.1 sp.2
      (hb sp (List.mem_cons_self sp rest)).1 (hb sp (List.mem_cons_self sp rest)).2
      (sp.1 + sp.2 + 1) sp.1 sp.2 ⟨[]⟩ [] [] acc
      (by omega) (le_refl _) (le_refl _)
      (fun _ => by simp [removeGaps]) (fun _ => by simp [removeGaps]) rfl rfl
      (by simp) (by simp)
    obtain ⟨P2, A2, e2, l2, p2⟩ := ih (acc.1 ++ P1, acc.2 ++ A1)
      (fun p hp => hb p (List.mem_cons_of_mem sp hp))
    refine ⟨P1 ++ P2, A1 ++ A2, ?_, by simp [l1, l2], ?_⟩
    · rw [List.foldl_cons, e1, e2]
      simp [List.append_assoc]
    · exact zip_concat_prop
        (fun pp aa => ∃ st1 st2, (st1, st2) ∈ sp :: rest ∧
          TbProp mat seq1 seq2 stopCond sna st1 st2 st1 st2 pp aa)
        P1 P2 A1 A2 l1
        (fun pp aa hm => ⟨sp.1, sp.2, by simp, p1 pp aa hm⟩)
        (fun pp aa hm => by
          obtain ⟨st1, st2, hmem, hprop⟩ := p2 pp aa hm
          exact ⟨st1, st2, List.mem_cons_of_mem sp hmem, hprop⟩)

theorem mem_zip_of_mem_right {α β : Type} :
    ∀ (l2 : List β) (l1 : List α), l1.length = l2.length → ∀ b ∈ l2,
      ∃ a, (a, b) ∈ l1.zip l2 := by
  intro l2
  induction l2 with
  | nil => intro l1 _ b hb; simp at hb
  | cons x xs ih =>
    intro l1 hlen b hb
    cases l1 with
    | nil => simp at hlen
    | cons y ys =>
      rcases List.mem_cons.mp hb with rfl | h2
      · exact ⟨y, by simp⟩
      · obtain ⟨a, ha⟩ := ih ys (by simpa using hlen) b h2
        exact ⟨a, List.mem_cons_of_mem _ ha⟩

theorem slice_substring (s : List Nat) (i k : Nat) :
    ∃ pre post, pre ++ (s.drop i).take k ++ post = s :=
  ⟨s.take i, (s.drop i).drop k, by
    rw [List.append_assoc, List.take_append_drop, List.take_append_drop]⟩

/-! ## Claim C2: the global round-trip (corrected) -/

/-- Counterexample to C2 as stated: the claim quantifies over LocalAligner
results too, but the local alignment of "AB" against "B" returns the pair
("B", "B"), and deleting gaps from "B" does not reproduce the original
seq1 = "AB". -/
theorem claim_C2_counterexample :
    (⟨[66], [66]⟩ : AlignedPair) ∈
      alignmentsOf (LocalAligner.align ⟨dcfg⟩ [65, 66] [66]) ∧
    removeGaps [66] ≠ [65, 66] := by decide

/-- C2 (amended): for every AlignedPair returned by `GlobalAligner::align`
on sequences that do not contain the gap marker byte 45, removing the gap
markers from each side reproduces exactly the original sequences, and both
aligned strings have equal length. -/
theorem claim_C2 (cfg : ScoringConfig) (s1 s2 : List Nat)
    (hg1 : 45 ∉ s1) (hg2 : 45 ∉ s2)
    (hOk : isOkE (GlobalAligner.align ⟨cfg⟩ s1 s2) = true) :
    ∀ pair ∈ alignmentsOf (GlobalAligner.align ⟨cfg⟩ s1 s2),
      removeGaps pair.seq1_aligned = s1 ∧
      removeGaps pair.seq2_aligned = s2 ∧
      pair.seq1_aligned.length = pair.seq2_aligned.length := by
  obtain ⟨mat0, hfill, halign⟩ := globalAlign_ok_decomp cfg s1 s2 hOk
  intro pair hpair
  rw [halign] at hpair
  obtain ⟨newP, newA, e, l, p⟩ := traceback_fold_prop mat0 s1 s2
    (fun i j _ => (i == 0) && (j == 0)) false
    [(s1.length, s2.length)] ([], [])
    (by intro q hq; simp at hq; subst hq; exact ⟨le_refl _, le_refl _⟩)
  have e2 : traceback_all_paths mat0 s1 s2 [(s1.length, s2.length)]
      (fun i j _ => (i == 0) && (j == 0)) false = (newP, newA) := by
    rw [traceback_all_paths, e]
    simp
  simp only [alignmentsOf] at hpair
  rw [e2] at hpair
  obtain ⟨pp, hzip⟩ := mem_zip_of_mem_right newA newP l pair hpair
  obtain ⟨st1, st2, hmem, hprop⟩ := p pp pair hzip
  simp only [List.mem_singleton] at hmem
  injection hmem with hm1 hm2
  subst hm1
  subst hm2
  obtain ⟨_, _, _, hlen, i', j', _, _, _, hstop, hrg1, hrg2⟩ := hprop
  have hij : i' = 0 ∧ j' = 0 := by
    rcases hstop with h | h
    · have := Bool.and_eq_true_iff.mp h
      exact ⟨beq_iff_eq.mp this.1, beq_iff_eq.mp this.2⟩
    · exact absurd h.1 (by simp)
  obtain ⟨rfl, rfl⟩ := hij
  refine ⟨?_, ?_, hlen⟩
  · rw [hrg1 hg1]
    simp
  · rw [hrg2 hg2]
    simp

/-- Witness for the amended C2: default config, "A" vs "A". -/
theorem claim_C2_witness :
    (45 ∉ [65]) ∧ (isOkE (GlobalAligner.align ⟨dcfg⟩ [65] [65]) = true) ∧
    (∀ pair ∈ alignmentsOf (GlobalAligner.align ⟨dcfg⟩ [65] [65]),
      removeGaps pair.seq1_aligned = [65] ∧
      removeGaps pair.seq2_aligned = [65] ∧
      pair.seq1_aligned.length = pair.seq2_aligned.length) :=
  ⟨by decide, by decide, claim_C2 dcfg [65] [65] (by decide) (by decide) (by decide)⟩

/-! ## Claim C9: global traceback structure -/

/-- C9: in the completed global matrix every cell other than `(0, 0)` has a
nonempty arrow bitmask; every returned traceback path starts at `(n, m)`,
ends at `(0, 0)`, and decreases the row index, the column index, or both by
exactly 1 at each consecutive step; and the traceback paths and alignments
lists have equal length, the k-th path having exactly one more step than the
k-th alignment has columns. -/
theorem claim_C9 (cfg : ScoringConfig) (s1 s2 : List Nat)
    (hOk : isOkE (GlobalAligner.align ⟨cfg⟩ s1 s2) = true) :
    (∀ i j, i ≤ s1.length → j ≤ s2.length → ¬(i = 0 ∧ j = 0) →
      ((matrixOf (GlobalAligner.align ⟨cfg⟩ s1 s2)).get i j).arrows.bits ≠ 0)
    ∧ (pathsOf (GlobalAligner.align ⟨cfg⟩ s1 s2)).length =
        (alignmentsOf (GlobalAligner.align ⟨cfg⟩ s1 s2)).length
    ∧ (∀ pp aa, (pp, aa) ∈ (pathsOf (GlobalAligner.align ⟨cfg⟩ s1 s2)).zip
          (alignmentsOf (GlobalAligner.align ⟨cfg⟩ s1 s2)) →
        pp.steps.head? = some (⟨s1.length, s2.length⟩ : TracebackStep) ∧
        pp.steps.getLast? = some (⟨0, 0⟩ : TracebackStep) ∧
        List.Chain' StepAdj pp.steps ∧
        pp.steps.length = aa.seq1_aligned.length + 1) := by
  obtain ⟨mat0, hfill, halign⟩ := globalAlign_ok_decomp cfg s1 s2 hOk
  have hmo : matrixOf (GlobalAligner.align ⟨cfg⟩ s1 s2) = mat0 := by rw [halign]; rfl
  obtain ⟨frame, _, _, spec⟩ :=
    fillRowsG_ok cfg s1 s2 s1.length 1 _ mat0 (by omega) hfill
  refine ⟨?_, ?_, ?_⟩
  · intro i j hi hj hne
    rw [hmo]
    by_cases hborder : i = 0 ∨ j = 0
    · rcases hborder with rfl | rfl
      · have hj1 : 1 ≤ j := by omega
        have : mat0.get 0 j = Cell.withArrows (cfg.gap_penalty j) Arrows.new.setLeft := by
          rw [frame 0 j (by omega)]
          exact globalInit_get_row cfg s1.length s2.length j hj1 hj
        rw [this]
        show Arrows.new.setLeft.bits ≠ 0
        decide
      · have hi1 : 1 ≤ i := by omega
        have : mat0.get i 0 = Cell.withArrows (cfg.gap_penalty i) Arrows.new.setUp := by
          rw [frame i 0 (by omega)]
          exact globalInit_get_col cfg s1.length s2.length i hi1 hi
        rw [this]
        show Arrows.new.setUp.bits ≠ 0
        decide
    · obtain ⟨s, hs, hcell⟩ := spec i j (by omega) (by omega) (by omega) hj
      rw [hcell, recurrenceCellG_arrows]
      rcases max3_eq_one (satAdd (mat0.get (i - 1) (j - 1)).score s)
        (satAdd (mat0.get (i - 1) j).score cfg.gap_open)
        (satAdd (mat0.get i (j - 1)).score cfg.gap_open) with hm | hm | hm
      · exact arrowsOf_bits_ne_zero _ _ _ (Or.inl (beq_iff_eq.mpr hm.symm))
      · exact arrowsOf_bits_ne_zero _ _ _ (Or.inr (Or.inl (beq_iff_eq.mpr hm.symm)))
      · exact arrowsOf_bits_ne_zero _ _ _ (Or.inr (Or.inr (beq_iff_eq.mpr hm.symm)))
  · obtain ⟨newP, newA, e, l, p⟩ := traceback_fold_prop mat0 s1 s2
      (fun i j _ => (i == 0) && (j == 0)) false
      [(s1.length, s2.length)] ([], [])
      (by intro q hq; simp at hq; subst hq; exact ⟨le_refl _, le_refl _⟩)
    have e2 : traceback_all_paths mat0 s1 s2 [(s1.length, s2.length)]
        (fun i j _ => (i == 0) && (j == 0)) false = (newP, newA) := by
      rw [traceback_all_paths, e]
      simp
    rw [halign]
    simp only [pathsOf, alignmentsOf]
    rw [e2]
    exact l
  · intro pp aa hmem
    obtain ⟨newP, newA, e, l, p⟩ := traceback_fold_prop mat0 s1 s2
      (fun i j _ => (i == 0) && (j == 0)) false
      [(s1.length, s2.length)] ([], [])
      (by intro q hq; simp at hq; subst hq; exact ⟨le_refl _, le_refl _⟩)
    have e2 : traceback_all_paths mat0 s1 s2 [(s1.length, s2.length)]
        (fun i j _ => (i == 0) && (j == 0)) false = (newP, newA) := by
      rw [traceback_all_paths, e]
      simp
    rw [halign] at hmem
    simp only [pathsOf, alignmentsOf] at hmem
    rw [e2] at hmem
    obtain ⟨st1, st2, hst, hprop⟩ := p pp aa hmem
    simp only [List.mem_singleton] at hst
    injection hst with hst1 hst2
    subst hst1
    subst hst2
    obtain ⟨hhead, hchain, hplen, _, i', j', _, _, hlast, hstop, _, _⟩ := hprop
    have hij : i' = 0 ∧ j' = 0 := by
      rcases hstop with h | h
      · have := Bool.and_eq_true_iff.mp h
        exact ⟨beq_iff_eq.mp this.1, beq_iff_eq.mp this.2⟩
      · exact absurd h.1 (by simp)
    obtain ⟨rfl, rfl⟩ := hij
    exact ⟨hhead, hlast, hchain, hplen⟩

/-- Witness for C9: default config, "A" vs "C". -/
theorem claim_C9_witness :
    (isOkE (GlobalAligner.align ⟨dcfg⟩ [65] [67]) = true) ∧
    ((∀ i j, i ≤ [65].length → j ≤ [67].length → ¬(i = 0 ∧ j = 0) →
        ((matrixOf (GlobalAligner.align ⟨dcfg⟩ [65] [67])).get i j).arrows.bits ≠ 0)
      ∧ (pathsOf (GlobalAligner.align ⟨dcfg⟩ [65] [67])).length =
          (alignmentsOf (GlobalAligner.align ⟨dcfg⟩ [65] [67])).length
      ∧ (∀ pp aa, (pp, aa) ∈ (pathsOf (GlobalAligner.align ⟨dcfg⟩ [65] [67])).zip
            (alignmentsOf (GlobalAligner.align ⟨dcfg⟩ [65] [67])) →
          pp.steps.head? = some (⟨[65].length, [67].length⟩ : TracebackStep) ∧
          pp.steps.getLast? = some (⟨0, 0⟩ : TracebackStep) ∧
          List.Chain' StepAdj pp.steps ∧
          pp.steps.length = aa.seq1_aligned.length + 1)) :=
  ⟨by decide, claim_C9 dcfg [65] [67] (by decide)⟩

/-! ## Claim C10: the local substring round-trip (corrected) -/

/-- Counterexample to C10 as stated: when the original sequence itself
contains the gap marker byte 45, deleting gap markers from the aligned
string can delete original residues; for seq1 = "A-A" vs seq2 = "AXA" the
single returned local alignment is ("A-A", "AXA"), whose degapped seq1 side
"AA" is not a contiguous substring of "A-A". -/
theorem claim_C10_counterexample :
    0 < finalScoreOf (LocalAligner.align ⟨dcfg⟩ [65, 45, 65] [65, 88, 65]) ∧
    (⟨[65, 45, 65], [65, 88, 65]⟩ : AlignedPair) ∈
      alignmentsOf (LocalAligner.align ⟨dcfg⟩ [65, 45, 65] [65, 88, 65]) ∧
    ¬∃ pre post, pre ++ removeGaps [65, 45, 65] ++ post = [65, 45, 65] := by
  refine ⟨by decide, by decide, ?_⟩
  rintro ⟨pre, post, h⟩
  have h2 : pre ++ [65, 65] ++ post = [65, 45, 65] := h
  rcases pre with _ | ⟨a, pre⟩
  · simp at h2
  · rcases pre with _ | ⟨b, pre⟩
    · simp at h2
    · have h3 := congrArg List.length h2
      simp at h3
      omega

/-- C10 (amended): in local mode with positive final score, on sequences
not containing the gap marker byte 45, every returned AlignedPair degaps on
each side to a contiguous substring of the corresponding original sequence,
and both aligned strings have equal length. -/
theorem claim_C10 (cfg : ScoringConfig) (s1 s2 : List Nat)
    (hg1 : 45 ∉ s1) (hg2 : 45 ∉ s2)
    (hOk : isOkE (LocalAligner.align ⟨cfg⟩ s1 s2) = true)
    (hpos : 0 < finalScoreOf (LocalAligner.align ⟨cfg⟩ s1 s2)) :
    ∀ pair ∈ alignmentsOf (LocalAligner.align ⟨cfg⟩ s1 s2),
      (∃ pre post, pre ++ removeGaps pair.seq1_aligned ++ post = s1) ∧
      (∃ pre post, pre ++ removeGaps pair.seq2_aligned ++ post = s2) ∧
      pair.seq1_aligned.length = pair.seq2_aligned.length := by
  obtain ⟨st, hfill, halign⟩ := localAlign_ok_decomp cfg s1 s2 hOk
  have hms : 0 < st.maxScore := by
    have : finalScoreOf (LocalAligner.align ⟨cfg⟩ s1 s2) = st.maxScore := by
      rw [halign]
      rfl
    rw [this] at hpos
    exact hpos
  obtain ⟨_, _, _, _, _, _, _, hpos2⟩ :=
    fillRowsL_ok cfg s1 s2 s1.length 1 _ st (by omega) hfill
  have hbounds : ∀ p ∈ st.maxPositions, p.1 ≤ s1.length ∧ p.2 ≤ s2.length := by
    intro p hp
    rcases hpos2 p hp with h | h
    · simp at h
    · exact ⟨by omega, by omega⟩
  intro pair hpair
  rw [halign] at hpair
  simp only [alignmentsOf] at hpair
  rw [if_pos hms] at hpair
  obtain ⟨newP, newA, e, l, p⟩ := traceback_fold_prop st.mat s1 s2
    localStopCond true st.maxPositions ([], []) hbounds
  have e2 : traceback_all_paths st.mat s1 s2 st.maxPositions localStopCond true =
      (newP, newA) := by
    rw [traceback_all_paths, e]
    simp
  rw [e2] at hpair
  obtain ⟨pp, hzip⟩ := mem_zip_of_mem_right newA newP l pair hpair
  obtain ⟨st1, st2, hmem, hprop⟩ := p pp pair hzip
  obtain ⟨_, _, _, hlen, i', j', _, _, _, _, hrg1, hrg2⟩ := hprop
  refine ⟨?_, ?_, hlen⟩
  · rw [hrg1 hg1]
    exact slice_substring s1 i' (st1 - i')
  · rw [hrg2 hg2]
    exact slice_substring s2 j' (st2 - j')

/-- Witness for the amended C10: default config, "AB" vs "B". -/
theorem claim_C10_witness :
    (45 ∉ [65, 66]) ∧
    (isOkE (LocalAligner.align ⟨dcfg⟩ [65, 66] [66]) = true) ∧
    (0 < finalScoreOf (LocalAligner.align ⟨dcfg⟩ [65, 66] [66])) ∧
    (∀ pair ∈ alignmentsOf (LocalAligner.align ⟨dcfg⟩ [65, 66] [66]),
      (∃ pre post, pre ++ removeGaps pair.seq1_aligned ++ post = [65, 66]) ∧
      (∃ pre post, pre ++ removeGaps pair.seq2_aligned ++ post = [66]) ∧
      pair.seq1_aligned.length = pair.seq2_aligned.length) :=
  ⟨by decide, by decide, by decide,
    claim_C10 dcfg [65, 66] [66] (by decide) (by decide) (by decide) (by decide)⟩

/-! ## Claim C5: saturating arithmetic and the forbidden pair -/

/-- C5: score accumulation clamps on overflow: adding a finite gap penalty
to the forbidden-pair sentinel `i32::MIN` stays at `i32::MIN` under
`satAdd`; concretely, in global mode with the PAM1 fragment (A vs W scored
`i32::MIN`) and gaps −10, aligning "AA" with "AW" returns no AlignedPair
whose sides are exactly "AA" and "AW". -/
theorem claim_C5 :
    satAdd i32Min (-10) = i32Min ∧
    (isOkE (GlobalAligner.align ⟨ScoringConfig.with_matrix pam1AW (-10) (-10)⟩
      [65, 65] [65, 87]) = true) ∧
    (∀ pair ∈ alignmentsOf (GlobalAligner.align
        ⟨ScoringConfig.with_matrix pam1AW (-10) (-10)⟩ [65, 65] [65, 87]),
      ¬(pair.seq1_aligned = [65, 65] ∧ pair.seq2_aligned = [65, 87])) := by
  refine ⟨by decide, by decide, by decide⟩

/-! ## Claim C8: self-alignment (corrected) -/

/-- Counterexample to C8 as stated: for the simple scorer with match score 0
and gap 0 (gap_open = gap_extend), aligning "A" against itself yields three
alignments, not exactly one — the claim holds only when the match score
strictly dominates the gap alternatives. -/
theorem claim_C8_counterexample :
    finalScoreOf (GlobalAligner.align ⟨ScoringConfig.linear 0 0 0 0⟩ [65] [65]) =
      ([65].length : Int) * 0 ∧
    (alignmentsOf (GlobalAligner.align ⟨ScoringConfig.linear 0 0 0 0⟩ [65] [65])).length = 3 ∧
    (alignmentsOf (GlobalAligner.align ⟨ScoringConfig.linear 0 0 0 0⟩ [65] [65])).length ≠ 1 := by
  refine ⟨by decide, by decide, by decide⟩

theorem satAdd_eq (a b : Int) (h1 : -2147483648 ≤ a + b) (h2 : a + b ≤ 2147483647) :
    satAdd a b = a + b := by
  unfold satAdd i32Min i32Max
  rw [min_eq_right h2, max_eq_right h1]

theorem satMul_eq (a b : Int) (h1 : -2147483648 ≤ a * b) (h2 : a * b ≤ 2147483647) :
    satMul a b = a * b := by
  unfold satMul i32Min i32Max
  rw [min_eq_right h2, max_eq_right h1]

theorem take_succ_getD (s : List Nat) (k : Nat) (hk : k < s.length) :
    s.take (k + 1) = s.take k ++ [s.getD k 0] := by
  rw [List.take_succ, List.getElem?_eq_getElem hk, List.getD_eq_getElem s 0 hk]
  rfl

/-- The coordinates `(i, i), (i-1, i-1), …, (0, 0)` of the pure-diagonal
traceback path. -/
def diagSteps : Nat → List TracebackStep
  | 0 => [⟨0, 0⟩]
  | k + 1 => ⟨k + 1, k + 1⟩ :: diagSteps k

/-- Cell bounds and exact diagonal values for a self-alignment matrix under
the simple scorer: every cell score has magnitude at most `(i+j)·Kv` (so no
saturation occurs), is bounded by the best-possible slice score
`min i j · M + |i − j| · g`, and each diagonal cell `(i, i)` scores exactly
`i·M` with a DIAGONAL-only arrow. -/
theorem c8_matrix_char (s : List Nat) (M X g Kv : Int) (mat0 : DPMatrix)
    (hXM : X ≤ M) (h2g : 2 * g < M) (hK0 : 0 ≤ Kv)
    (hKM : |M| ≤ Kv) (hKX : |X| ≤ Kv) (hKg : |g| ≤ Kv)
    (hK : (2 * (s.length : Int) + 2) * Kv < 2147483648)
    (horigin : mat0.get 0 0 = Cell.new 0)
    (hcol : ∀ a, 1 ≤ a → a ≤ s.length →
      mat0.get a 0 = Cell.withArrows (g * (a : Int)) Arrows.new.setUp)
    (hrow : ∀ a, 1 ≤ a → a ≤ s.length →
      mat0.get 0 a = Cell.withArrows (g * (a : Int)) Arrows.new.setLeft)
    (hchar : ∀ i j, 1 ≤ i → i ≤ s.length → 1 ≤ j → j ≤ s.length →
      ∃ sv, (sv = M ∨ sv = X) ∧ (i = j → sv = M) ∧
        mat0.get i j = recurrenceCellG g sv (mat0.get (i - 1) (j - 1)).score
          (mat0.get (i - 1) j).score (mat0.get i (j - 1)).score) :
    ∀ k i j, i + j ≤ k → i ≤ s.length → j ≤ s.length →
      (|(mat0.get i j).score| ≤ ((i : Int) + (j : Int)) * Kv
       ∧ (mat0.get i j).score ≤ min (i : Int) (j : Int) * M + |(i : Int) - (j : Int)| * g
       ∧ (i = j → (mat0.get i j).score = (i : Int) * M ∧
            (1 ≤ i → (mat0.get i j).arrows = (⟨1⟩ : Arrows)))) := by
  have hsum : ∀ (a x t : Int), |a| ≤ t * Kv → |x| ≤ Kv → 0 ≤ t →
      t + 1 ≤ 2 * (s.length : Int) + 2 →
      satAdd a x = a + x ∧ |a + x| ≤ (t + 1) * Kv := by
    intro a x t ha hx ht htL
    have habs : |a + x| ≤ (t + 1) * Kv := by
      calc |a + x| ≤ |a| + |x| := abs_add a x
        _ ≤ t * Kv + Kv := by linarith
        _ = (t + 1) * Kv := by ring
    have hle : (t + 1) * Kv ≤ (2 * (s.length : Int) + 2) * Kv :=
      mul_le_mul_of_nonneg_right htL hK0
    have h1 := (abs_le.mp habs).1
    have h2 := (abs_le.mp habs).2
    exact ⟨satAdd_eq a x (by linarith) (by linarith), habs⟩
  intro k
  induction k with
  | zero =>
    intro i j hk hi hj
    have hi0 : i = 0 := by omega
    have hj0 : j = 0 := by omega
    subst hi0
    subst hj0
    rw [horigin]
    refine ⟨by simp [Cell.new], by simp [Cell.new], fun _ => ⟨by simp [Cell.new], ?_⟩⟩
    intro h
    omega
  | succ k ihk =>
    intro i j hk hi hj
    by_cases hiz : i = 0
    · subst hiz
      by_cases hjz : j = 0
      · subst hjz
        rw [horigin]
        refine ⟨by simp [Cell.new], by simp [Cell.new], fun _ => ⟨by simp [Cell.new], ?_⟩⟩
        intro h
        omega
      · have hj1 : 1 ≤ j := by omega
        rw [hrow j hj1 hj]
        refine ⟨?_, ?_, fun h => absurd h.symm (by omega)⟩
        · show |g * (j : Int)| ≤ (((0 : Nat) : Int) + (j : Int)) * Kv
          rw [abs_mul, abs_of_nonneg (show (0:Int) ≤ (j:Int) by positivity)]
          calc |g| * (j : Int) ≤ Kv * (j : Int) :=
              mul_le_mul_of_nonneg_right hKg (by positivity)
            _ = (((0 : Nat) : Int) + (j : Int)) * Kv := by push_cast; ring
        · show g * (j : Int) ≤
            min ((0 : Nat) : Int) (j : Int) * M + |((0 : Nat) : Int) - (j : Int)| * g
          have habs0 : |((0 : Nat) : Int) - (j : Int)| = (j : Int) := by
            push_cast
            rw [zero_sub, abs_neg, abs_of_nonneg (by positivity)]
          rw [habs0, min_eq_left (by push_cast; positivity)]
          push_cast
          exact le_of_eq (by ring)
    · by_cases hjz : j = 0
      · subst hjz
        have hi1 : 1 ≤ i := by omega
        rw [hcol i hi1 hi]
        refine ⟨?_, ?_, fun h => absurd h (by omega)⟩
        · show |g * (i : Int)| ≤ ((i : Int) + ((0 : Nat) : Int)) * Kv
          rw [abs_mul, abs_of_nonneg (show (0:Int) ≤ (i:Int) by positivity)]
          calc |g| * (i : Int) ≤ Kv * (i : Int) :=
              mul_le_mul_of_nonneg_right hKg (by positivity)
            _ = ((i : Int) + ((0 : Nat) : Int)) * Kv := by push_cast; ring
        · show g * (i : Int) ≤
            min (i : Int) ((0 : Nat) : Int) * M + |(i : Int) - ((0 : Nat) : Int)| * g
          have habs0 : |(i : Int) - ((0 : Nat) : Int)| = (i : Int) := by
            push_cast
            rw [sub_zero, abs_of_nonneg (by positivity)]
          rw [habs0, min_eq_right (by push_cast; positivity)]
          push_cast
          exact le_of_eq (by ring)
      · have hi1 : 1 ≤ i := by omega
        have hj1 : 1 ≤ j := by omega
        obtain ⟨sv, hsvMX, hsvdiag, hcell⟩ := hchar i j hi1 hi hj1 hj
        have IHd := ihk (i - 1) (j - 1) (by omega) (by omega) (by omega)
        have IHu := ihk (i - 1) j (by omega) (by omega) hj
        have IHl := ihk i (j - 1) (by omega) hi (by omega)
        have hsvK : |sv| ≤ Kv := by
          rcases hsvMX with h | h
          · rw [h]
            exact hKM
          · rw [h]
            exact hKX
        have hsvM : sv ≤ M := by
          rcases hsvMX with h | h
          · rw [h]
          · rw [h]
            exact hXM
        have hci : ((i - 1 : Nat) : Int) = (i : Int) - 1 := by omega
        have hcj : ((j - 1 : Nat) : Int) = (j : Int) - 1 := by omega
        have hAd : |(mat0.get (i - 1) (j - 1)).score| ≤
            ((i : Int) - 1 + ((j : Int) - 1)) * Kv := by
          have h := IHd.1
          rw [hci, hcj] at h
          exact h
        have hAu : |(mat0.get (i - 1) j).score| ≤ ((i : Int) - 1 + (j : Int)) * Kv := by
          have h := IHu.1
          rw [hci] at h
          exact h
        have hAl : |(mat0.get i (j - 1)).score| ≤ ((i : Int) + ((j : Int) - 1)) * Kv := by
          have h := IHl.1
          rw [hcj] at h
          exact h
        obtain ⟨hdEq, hdAbs⟩ := hsum _ sv _ hAd hsvK (by omega) (by omega)
        obtain ⟨huEq, huAbs⟩ := hsum _ g _ hAu hKg (by omega) (by omega)
        obtain ⟨hlEq, hlAbs⟩ := hsum _ g _ hAl hKg (by omega) (by omega)
        have hscore : (mat0.get i j).score =
            max (max ((mat0.get (i - 1) (j - 1)).score + sv)
              ((mat0.get (i - 1) j).score + g)) ((mat0.get i (j - 1)).score + g) := by
          rw [hcell, recurrenceCellG_score, hdEq, huEq, hlEq]
        have habs : |(mat0.get i j).score| ≤ ((i : Int) + (j : Int)) * Kv := by
          rw [hscore]
          rcases max3_eq_one ((mat0.get (i - 1) (j - 1)).score + sv)
            ((mat0.get (i - 1) j).score + g) ((mat0.get i (j - 1)).score + g)
            with hm | hm | hm <;> rw [hm]
          · calc |(mat0.get (i - 1) (j - 1)).score + sv|
                ≤ ((i : Int) - 1 + ((j : Int) - 1) + 1) * Kv := hdAbs
              _ ≤ ((i : Int) + (j : Int)) * Kv :=
                mul_le_mul_of_nonneg_right (by linarith) hK0
          · calc |(mat0.get (i - 1) j).score + g|
                ≤ ((i : Int) - 1 + (j : Int) + 1) * Kv := huAbs
              _ = ((i : Int) + (j : Int)) * Kv := by ring
          · calc |(mat0.get i (j - 1)).score + g|
                ≤ ((i : Int) + ((j : Int) - 1) + 1) * Kv := hlAbs
              _ = ((i : Int) + (j : Int)) * Kv := by ring
        have hBd : (mat0.get (i - 1) (j - 1)).score + sv ≤
            min (i : Int) (j : Int) * M + |(i : Int) - (j : Int)| * g := by
          have h := IHd.2.1
          rw [hci, hcj] at h
          have hminEq : min ((i : Int) - 1) ((j : Int) - 1) = min (i : Int) (j : Int) - 1 := by
            rcases le_total (i : Int) (j : Int) with hle | hle
            · rw [min_eq_left (by linarith), min_eq_left hle]
            · rw [min_eq_right (by linarith), min_eq_right hle]
          have habsEq : |(i : Int) - 1 - ((j : Int) - 1)| = |(i : Int) - (j : Int)| := by
            congr 1
            ring
          rw [hminEq, habsEq] at h
          calc (mat0.get (i - 1) (j - 1)).score + sv
              ≤ (min (i : Int) (j : Int) - 1) * M + |(i : Int) - (j : Int)| * g + M := by
                linarith
            _ = min (i : Int) (j : Int) * M + |(i : Int) - (j : Int)| * g := by ring
        have hBu : (mat0.get (i - 1) j).score + g ≤
            min (i : Int) (j : Int) * M + |(i : Int) - (j : Int)| * g := by
          have h := IHu.2.1
          rw [hci] at h
          by_cases hlt : (i : Int) ≤ (j : Int)
          · rw [min_eq_left (by linarith)] at h
            have habsEq : |(i : Int) - 1 - (j : Int)| = (j : Int) - (i : Int) + 1 := by
              rw [abs_of_nonpos (by linarith)]
              ring
            rw [habsEq] at h
            have habsEq2 : |(i : Int) - (j : Int)| = (j : Int) - (i : Int) := by
              rw [abs_of_nonpos (by linarith)]
              ring
            rw [min_eq_left hlt, habsEq2]
            linarith
          · have hji : (j : Int) + 1 ≤ (i : Int) := by omega
            rw [min_eq_right (by linarith)] at h
            have habsEq : |(i : Int) - 1 - (j : Int)| = (i : Int) - 1 - (j : Int) :=
              abs_of_nonneg (by linarith)
            rw [habsEq] at h
            have habsEq2 : |(i : Int) - (j : Int)| = (i : Int) - (j : Int) :=
              abs_of_nonneg (by linarith)
            rw [min_eq_right (by linarith), habsEq2]
            linarith
        have hBl : (mat0.get i (j - 1)).score + g ≤
            min (i : Int) (j : Int) * M + |(i : Int) - (j : Int)| * g := by
          have h := IHl.2.1
          rw [hcj] at h
          by_cases hlt : (j : Int) ≤ (i : Int)
          · rw [min_eq_right (by linarith)] at h
            have habsEq : |(i : Int) - ((j : Int) - 1)| = (i : Int) - (j : Int) + 1 := by
              rw [abs_of_nonneg (by linarith)]
              ring
            rw [habsEq] at h
            have habsEq2 : |(i : Int) - (j : Int)| = (i : Int) - (j : Int) :=
              abs_of_nonneg (by linarith)
            rw [min_eq_right hlt, habsEq2]
            linarith
          · have hij : (i : Int) + 1 ≤ (j : Int) := by omega
            rw [min_eq_left (by linarith)] at h
            have habsEq : |(i : Int) - ((j : Int) - 1)| = (j : Int) - 1 - (i : Int) := by
              rw [abs_of_nonpos (by linarith)]
              ring
            rw [habsEq] at h
            have habsEq2 : |(i : Int) - (j : Int)| = (j : Int) - (i : Int) := by
              rw [abs_of_nonpos (by linarith)]
              ring
            rw [min_eq_left (by linarith), habsEq2]
            linarith
        have hBscore : (mat0.get i j).score ≤
            min (i : Int) (j : Int) * M + |(i : Int) - (j : Int)| * g := by
          rw [hscore]
          exact max_le (max_le hBd hBu) hBl
        refine ⟨habs, hBscore, ?_⟩
        intro hije
        subst hije
        have hsM : sv = M := hsvdiag rfl
        have hdexact : (mat0.get (i - 1) (i - 1)).score = ((i : Int) - 1) * M := by
          have h := (IHd.2.2 rfl).1
          rw [hci] at h
          exact h
        have hdval : (mat0.get (i - 1) (i - 1)).score + sv = (i : Int) * M := by
          rw [hsM, hdexact]
          ring
        have hu_lt : (mat0.get (i - 1) i).score + g < (i : Int) * M := by
          have h := IHu.2.1
          rw [hci] at h
          rw [min_eq_left (by linarith)] at h
          have habsEq : |(i : Int) - 1 - (i : Int)| = 1 := by
            rw [abs_of_nonpos (by linarith)]
            ring
          rw [habsEq] at h
          linarith
        have hl_lt : (mat0.get i (i - 1)).score + g < (i : Int) * M := by
          have h := IHl.2.1
          rw [hcj] at h
          rw [min_eq_right (by linarith)] at h
          have habsEq : |(i : Int) - ((i : Int) - 1)| = 1 := by
            rw [abs_of_nonneg (by linarith)]
            ring
          rw [habsEq] at h
          linarith
        have hBA : (mat0.get (i - 1) i).score + g ≤
            (mat0.get (i - 1) (i - 1)).score + sv := by
          rw [hdval]
          exact le_of_lt hu_lt
        have hCA : (mat0.get i (i - 1)).score + g ≤
            (mat0.get (i - 1) (i - 1)).score + sv := by
          rw [hdval]
          exact le_of_lt hl_lt
        have hbestEq : max (max ((mat0.get (i - 1) (i - 1)).score + sv)
            ((mat0.get (i - 1) i).score + g)) ((mat0.get i (i - 1)).score + g) =
            (i : Int) * M := by
          rw [max_eq_left hBA, max_eq_left hCA]
          exact hdval
        constructor
        · rw [hscore]
          exact hbestEq
        · intro _
          rw [hcell, recurrenceCellG_arrows, hdEq, huEq, hlEq, hbestEq]
          rw [show ((mat0.get (i - 1) (i - 1)).score + sv == (i : Int) * M) = true from
              beq_iff_eq.mpr hdval,
            show ((mat0.get (i - 1) i).score + g == (i : Int) * M) = false from
              beq_eq_false_iff_ne.mpr (ne_of_lt hu_lt),
            show ((mat0.get i (i - 1)).score + g == (i : Int) * M) = false from
              beq_eq_false_iff_ne.mpr (ne_of_lt hl_lt)]
          rfl

/-- On a matrix whose diagonal cells carry a DIAGONAL-only arrow, the global
traceback started at `(k, k)` follows exactly the diagonal: it emits the single
path `path.steps ++ diagSteps k` and the single gap-free alignment pairing the
first `k` residues of the sequence with themselves. -/
theorem c8_traceback (mat : DPMatrix) (s : List Nat)
    (hdiag : ∀ i, 1 ≤ i → i ≤ s.length → (mat.get i i).arrows = (⟨1⟩ : Arrows)) :
    ∀ k, k ≤ s.length → ∀ fuel, k + k + 1 ≤ fuel →
      ∀ (path : TracebackPath) (aln1 aln2 : List Nat)
        (acc : List TracebackPath × List AlignedPair),
      tracebackRecursive mat s s (fun i j _ => (i == 0) && (j == 0)) false
        fuel k k path aln1 aln2 acc =
      (acc.1 ++ [⟨path.steps ++ diagSteps k⟩],
       acc.2 ++ [⟨s.take k ++ aln1.reverse, s.take k ++ aln2.reverse⟩]) := by
  intro k
  induction k with
  | zero =>
    intro _ fuel hfuel path aln1 aln2 acc
    match fuel, hfuel with
    | f + 1, _ =>
      rw [tracebackRecursive]
      simp [TracebackPath.push, diagSteps]
  | succ k ih =>
    intro hk fuel hfuel path aln1 aln2 acc
    match fuel, hfuel with
    | f + 1, hfuel =>
      have harr : (mat.get (k + 1) (k + 1)).arrows = (⟨1⟩ : Arrows) :=
        hdiag (k + 1) (by omega) hk
      have hd : (⟨1⟩ : Arrows).hasDiagonal = true := by decide
      have hu : (⟨1⟩ : Arrows).hasUp = false := by decide
      have hl : (⟨1⟩ : Arrows).hasLeft = false := by decide
      have hpos : decide (0 < k + 1) = true := decide_eq_true (Nat.succ_pos k)
      have hne : ((k + 1 : Nat) == 0) = false := by simp
      rw [tracebackRecursive]
      simp [harr, hd, hu, hl, hpos, hne, ih (by omega) f (by omega),
        TracebackPath.push, diagSteps, take_succ_getD s k (by omega),
        List.append_assoc]

/-- C8 (amended): aligning a sequence against itself in global mode under a
simple scorer with `mismatch ≤ match`, `2·gap < match` and all intermediate
quantities comfortably inside the i32 range succeeds with
`final_score = length · match` and returns exactly one alignment, whose two
sides are both the unmodified original sequence (no gap insertions). -/
theorem claim_C8 (s : List Nat) (M X g : Int)
    (hXM : X ≤ M) (h2g : 2 * g < M)
    (hK : (2 * (s.length : Int) + 2) * max (max |M| |X|) |g| < 2147483648) :
    isOkE (GlobalAligner.align ⟨ScoringConfig.linear M X g g⟩ s s) = true ∧
    finalScoreOf (GlobalAligner.align ⟨ScoringConfig.linear M X g g⟩ s s) =
      (s.length : Int) * M ∧
    alignmentsOf (GlobalAligner.align ⟨ScoringConfig.linear M X g g⟩ s s) =
      [⟨s, s⟩] := by
  have hscoreAll : ∀ a b, ∃ sv,
      (ScoringConfig.linear M X g g).substitution_score a b = .ok sv :=
    fun a b => simple_score_ok M X g g a b
  have hel : (ScoringConfig.linear M X g g).ensure_linear = .ok () :=
    ensure_linear_of_eq (.Simple M X) g
  have hval : (ScoringConfig.linear M X g g).scorer.validate s = .ok () := rfl
  have hOk : isOkE (GlobalAligner.align ⟨ScoringConfig.linear M X g g⟩ s s) = true := by
    obtain ⟨mat, hfill⟩ := fillRowsG_never_err (ScoringConfig.linear M X g g) s s
      hscoreAll s.length 1
      (GlobalAligner.init_matrix ⟨ScoringConfig.linear M X g g⟩ s.length s.length)
    simp only [GlobalAligner.align, hel, hval, fill_matrix_linear, Bool.false_eq_true,
      if_false, hfill, isOkE]
  obtain ⟨mat, hfill, halign⟩ :=
    globalAlign_ok_decomp (ScoringConfig.linear M X g g) s s hOk
  obtain ⟨frame, hrows, hcols, spec⟩ := fillRowsG_ok (ScoringConfig.linear M X g g)
    s s s.length 1 _ mat (by omega) hfill
  have horigin : mat.get 0 0 = Cell.new 0 := by
    rw [frame 0 0 (by omega)]
    exact globalInit_get_origin (ScoringConfig.linear M X g g) s.length s.length
  have hKv0 : (0 : Int) ≤ max (max |M| |X|) |g| :=
    le_trans (abs_nonneg g) (le_max_right _ _)
  have hgp : ∀ a : Nat, 1 ≤ a → a ≤ s.length →
      (ScoringConfig.linear M X g g).gap_penalty a = g * (a : Int) := by
    intro a h1 h2
    have hbound : |g * (a : Int)| < 2147483648 := by
      have ha0 : (0 : Int) ≤ (a : Int) := by positivity
      have haL : (a : Int) ≤ (s.length : Int) := by exact_mod_cast h2
      have hb1 : |g * (a : Int)| ≤
          (2 * (s.length : Int) + 2) * max (max |M| |X|) |g| := by
        rw [abs_mul]
        calc |g| * |(a : Int)| ≤ max (max |M| |X|) |g| * |(a : Int)| :=
            mul_le_mul_of_nonneg_right (le_max_right _ _) (abs_nonneg _)
          _ = max (max |M| |X|) |g| * (a : Int) := by rw [abs_of_nonneg ha0]
          _ ≤ max (max |M| |X|) |g| * (2 * (s.length : Int) + 2) :=
            mul_le_mul_of_nonneg_left (by linarith) hKv0
          _ = (2 * (s.length : Int) + 2) * max (max |M| |X|) |g| := mul_comm _ _
      exact lt_of_le_of_lt hb1 hK
    have hb2 := abs_lt.mp hbound
    have hb3 : g * (a : Int) + 1 ≤ 2147483648 := Int.lt_iff_add_one_le.mp hb2.2
    have ha0 : ¬(a = 0) := by omega
    have haff : ¬((ScoringConfig.linear M X g g).is_affine = true) := by
      simp [ScoringConfig.is_affine, ScoringConfig.linear]
    rw [ScoringConfig.gap_penalty, if_neg ha0, if_neg haff]
    exact satMul_eq g (a : Int) (by linarith [hb2.1]) (by linarith [hb3])
  have hcol : ∀ a, 1 ≤ a → a ≤ s.length →
      mat.get a 0 = Cell.withArrows (g * (a : Int)) Arrows.new.setUp := by
    intro a h1 h2
    rw [frame a 0 (by omega),
      globalInit_get_col (ScoringConfig.linear M X g g) s.length s.length a h1 h2,
      hgp a h1 h2]
  have hrowB : ∀ a, 1 ≤ a → a ≤ s.length →
      mat.get 0 a = Cell.withArrows (g * (a : Int)) Arrows.new.setLeft := by
    intro a h1 h2
    rw [frame 0 a (by omega),
      globalInit_get_row (ScoringConfig.linear M X g g) s.length s.length a h1 h2,
      hgp a h1 h2]
  have hchar : ∀ i j, 1 ≤ i → i ≤ s.length → 1 ≤ j → j ≤ s.length →
      ∃ sv, (sv = M ∨ sv = X) ∧ (i = j → sv = M) ∧
        mat.get i j = recurrenceCellG g sv (mat.get (i - 1) (j - 1)).score
          (mat.get (i - 1) j).score (mat.get i (j - 1)).score := by
    intro i j h1 h2 h3 h4
    obtain ⟨sv, hsv, hcell⟩ := spec i j h1 (by omega) h3 h4
    have hsv' : (if toAsciiUppercase (s.getD (i - 1) 0) =
          toAsciiUppercase (s.getD (j - 1) 0)
        then Except.ok M else Except.ok X) =
        (Except.ok sv : Except AlignmentError Int) := by
      rw [← hsv]
      rfl
    refine ⟨sv, ?_, ?_, hcell⟩
    · by_cases hab : toAsciiUppercase (s.getD (i - 1) 0) =
          toAsciiUppercase (s.getD (j - 1) 0)
      · rw [if_pos hab] at hsv'
        injection hsv' with h
        exact Or.inl h.symm
      · rw [if_neg hab] at hsv'
        injection hsv' with h
        exact Or.inr h.symm
    · intro hij
      rw [hij] at hsv'
      rw [if_pos rfl] at hsv'
      injection hsv' with h
      exact h.symm
  have hmain := c8_matrix_char s M X g (max (max |M| |X|) |g|) mat hXM h2g hKv0
    (le_trans (le_max_left _ _) (le_max_left _ _))
    (le_trans (le_max_right _ _) (le_max_left _ _))
    (le_max_right _ _) hK horigin hcol hrowB hchar
  have hfinal : (mat.get s.length s.length).score = (s.length : Int) * M :=
    ((hmain (s.length + s.length) s.length s.length (le_refl _)
      (le_refl _) (le_refl _)).2.2 rfl).1
  have hdiagAll : ∀ i, 1 ≤ i → i ≤ s.length → (mat.get i i).arrows = (⟨1⟩ : Arrows) :=
    fun i h1 h2 => ((hmain (i + i) i i (le_refl _) h2 h2).2.2 rfl).2 h1
  have htb : traceback_all_paths mat s s [(s.length, s.length)]
      (fun i j _ => (i == 0) && (j == 0)) false =
      ([⟨diagSteps s.length⟩], [⟨s, s⟩]) := by
    show tracebackRecursive mat s s (fun i j _ => (i == 0) && (j == 0)) false
      (s.length + s.length + 1) s.length s.length ⟨[]⟩ [] [] ([], []) = _
    rw [c8_traceback mat s hdiagAll s.length (le_refl _) (s.length + s.length + 1)
      (le_refl _) ⟨[]⟩ [] [] ([], [])]
    simp
  refine ⟨hOk, ?_, ?_⟩
  · rw [halign]
    show (mat.get s.length s.length).score = (s.length : Int) * M
    exact hfinal
  · rw [halign]
    show (traceback_all_paths mat s s [(s.length, s.length)]
      (fun i j _ => (i == 0) && (j == 0)) false).2 = [⟨s, s⟩]
    rw [htb]

/-- Witness for C8: "ACGT" against itself with match 3, mismatch -1, gap -2
scores 12 and returns the single gap-free alignment ("ACGT", "ACGT"). -/
theorem claim_C8_witness :
    ((-1 : Int) ≤ 3) ∧ (2 * (-2 : Int) < 3) ∧
    ((2 * (([65, 67, 71, 84] : List Nat).length : Int) + 2) *
      max (max |(3 : Int)| |(-1 : Int)|) |(-2 : Int)| < 2147483648) ∧
    (isOkE (GlobalAligner.align ⟨ScoringConfig.linear 3 (-1) (-2) (-2)⟩
        [65, 67, 71, 84] [65, 67, 71, 84]) = true ∧
      finalScoreOf (GlobalAligner.align ⟨ScoringConfig.linear 3 (-1) (-2) (-2)⟩
        [65, 67, 71, 84] [65, 67, 71, 84]) =
        (([65, 67, 71, 84] : List Nat).length : Int) * 3 ∧
      alignmentsOf (GlobalAligner.align ⟨ScoringConfig.linear 3 (-1) (-2) (-2)⟩
        [65, 67, 71, 84] [65, 67, 71, 84]) =
        [⟨[65, 67, 71, 84], [65, 67, 71, 84]⟩]) :=
  ⟨by decide, by decide, by decide,
    claim_C8 [65, 67, 71, 84] 3 (-1) (-2) (by decide) (by decide) (by decide)⟩

end Genotypst
